import Mathlib

/-!
Verification model of the tool-execution gateway in `cursor_mcp_server.py`
and its plain-HTTP binding `http_mcp_bridge.py`.

Python text values (`str`) are modelled as `List Char` (a Python string is a
sequence of code points).  Wall-clock times (`time.time()` floats) are
modelled as rationals.  Filesystem paths are modelled as lists of components;
the filesystem visible to the gateway is an association list from absolute
component paths to file contents plus a list of existing directories.
-/

namespace MCPModel

abbrev Str := List Char

/-- The line-break characters recognised by Python's `str.splitlines`. -/
def isLineBreak (c : Char) : Bool :=
  c == '\n' || c == '\r' || c == Char.ofNat 11 || c == Char.ofNat 12 ||
  c == Char.ofNat 28 || c == Char.ofNat 29 || c == Char.ofNat 30 ||
  c == Char.ofNat 133 || c == Char.ofNat 8232 || c == Char.ofNat 8233

/-- Collapse the two-character sequence CR LF into a single LF, as
`str.splitlines` treats `"\r\n"` as one line boundary. -/
def normNL : Str → Str
  | [] => []
  | [c] => [c]
  | c :: d :: rest =>
    if c = '\r' ∧ d = '\n' then '\n' :: normNL rest
    else c :: normNL (d :: rest)

/-- Worker for `splitlines`: `acc` is the current (reversed-free) segment. -/
def splitlinesAux : Str → Str → List Str
  | [], acc => if acc.isEmpty then [] else [acc]
  | c :: rest, acc =>
    if isLineBreak c then acc :: splitlinesAux rest []
    else splitlinesAux rest (acc ++ [c])

/-- Python `str.splitlines()` (no `keepends`). -/
def splitlines (s : Str) : List Str := splitlinesAux (normNL s) []

/-- Python `"\n".join(lines)`. -/
def joinNL : List Str → Str
  | [] => []
  | [l] => l
  | l :: ls => l ++ '\n' :: joinNL ls

/-- Python `"/".join(parts)`, used for `PurePath.as_posix()`. -/
def joinSlash : List Str → Str
  | [] => []
  | [l] => l
  | l :: ls => l ++ '/' :: joinSlash ls

def digitChar (n : ℕ) : Char := Char.ofNat (48 + n)

/-- Decimal digits of a natural number (fuel-based so it reduces in the kernel). -/
def natToStrAux : ℕ → ℕ → Str
  | 0, _ => []
  | fuel + 1, n =>
    if n < 10 then [digitChar n]
    else natToStrAux fuel (n / 10) ++ [digitChar (n % 10)]

/-- Python `str(n)` for a non-negative integer. -/
def natToStr (n : ℕ) : Str := natToStrAux (n + 1) n

/-!  ## `fnmatch.fnmatch` (POSIX case): `*` matches any run of characters
(including `/`), `?` matches one character, other characters literally.
The deny-list patterns below use only `*` and literal characters. -/

def globMatchFuel : ℕ → Str → Str → Bool
  | 0, _, _ => false
  | _ + 1, [], s => s.isEmpty
  | fuel + 1, '*' :: ps, [] => globMatchFuel fuel ps []
  | fuel + 1, '*' :: ps, c :: s' =>
    globMatchFuel fuel ps (c :: s') || globMatchFuel fuel ('*' :: ps) s'
  | _ + 1, '?' :: _, [] => false
  | fuel + 1, '?' :: ps, _ :: s' => globMatchFuel fuel ps s'
  | fuel + 1, p :: ps, c :: s' => p == c && globMatchFuel fuel ps s'
  | _ + 1, _ :: _, [] => false

/-- Model: `fnmatch.fnmatch(name, pat)` on a POSIX host. -/
def fnmatch (name pat : Str) : Bool :=
  globMatchFuel (pat.length + name.length + 1) pat name

/-- Model: `READ_DENYLIST` from `cursor_mcp_server.py`. -/
def READ_DENYLIST : List Str :=
  [("**/.git/**").toList,
   ("**/.svn/**").toList,
   ("**/.hg/**").toList,
   ("**/node_modules/**").toList,
   ("**/.venv/**").toList,
   ("**/venv/**").toList,
   ("**/.tox/**").toList,
   ("**/.cache/**").toList,
   ("**/.env*").toList,
   ("**/*id_rsa*").toList,
   ("**/*id_dsa*").toList,
   ("**/*.pem").toList,
   ("**/*.key").toList,
   ("**/*.p12").toList,
   ("**/*.pfx").toList,
   ("**/*_cert*").toList,
   ("**/*.kdbx").toList,
   ("**/.aws/**").toList,
   ("**/.azure/**").toList,
   ("**/.gcp/**").toList,
   ("**/.ssh/**").toList,
   ("**/.npmrc").toList,
   ("**/.pypirc").toList]

/-- Model: `_denylisted(rel_posix)`. -/
def denylisted (rel : Str) : Bool :=
  READ_DENYLIST.any (fun pat => fnmatch rel pat)

/-! ## Regular expressions (Brzozowski derivatives)

The command whitelist patterns of `ALLOWED_COMMANDS` are transcribed into a
small regular-expression AST; `fullmatch` decides exactly the language of the
pattern, which is what `re.fullmatch` does for these backreference-free
patterns. -/

inductive Regex where
  | emp : Regex
  | eps : Regex
  | cls : (Char → Bool) → Regex
  | seq : Regex → Regex → Regex
  | alt : Regex → Regex → Regex
  | star : Regex → Regex

def Regex.nullable : Regex → Bool
  | .emp => false
  | .eps => true
  | .cls _ => false
  | .seq r1 r2 => r1.nullable && r2.nullable
  | .alt r1 r2 => r1.nullable || r2.nullable
  | .star _ => true

/-- Smart alternation constructor (keeps derivative terms small). -/
def mkAlt : Regex → Regex → Regex
  | .emp, r => r
  | r, .emp => r
  | r1, r2 => .alt r1 r2

/-- Smart concatenation constructor (keeps derivative terms small). -/
def mkSeq : Regex → Regex → Regex
  | .emp, _ => .emp
  | _, .emp => .emp
  | .eps, r => r
  | r, .eps => r
  | r1, r2 => .seq r1 r2

def Regex.deriv (c : Char) : Regex → Regex
  | .emp => .emp
  | .eps => .emp
  | .cls p => if p c then .eps else .emp
  | .seq r1 r2 =>
    if r1.nullable then mkAlt (mkSeq (r1.deriv c) r2) (r2.deriv c)
    else mkSeq (r1.deriv c) r2
  | .alt r1 r2 => mkAlt (r1.deriv c) (r2.deriv c)
  | .star r => mkSeq (r.deriv c) (.star r)

/-- Model: `re.fullmatch` for the transcribed patterns. -/
def fullmatch (r : Regex) (s : Str) : Bool :=
  (s.foldl (fun r c => r.deriv c) r).nullable

def rxChar (c : Char) : Regex := .cls (fun x => x == c)

def rxStr (s : Str) : Regex := s.foldr (fun c r => mkSeq (rxChar c) r) .eps

def rxOpt (r : Regex) : Regex := .alt r .eps

def rxPlus (r : Regex) : Regex := .seq r (.star r)

/-- Python `\s` (ASCII range). -/
def isPySpace (c : Char) : Bool :=
  c == ' ' || c == '\t' || c == '\n' || c == '\r' || c == Char.ofNat 11 || c == Char.ofNat 12

/-- Python `\w` (ASCII range; the whitelisted commands are ASCII). -/
def isWordChar (c : Char) : Bool := c.isAlphanum || c == '_'

def rxWs : Regex := rxPlus (.cls isPySpace)

/-- Character class `[\w\-\.,]` used by the `-k`/`-m` arguments. -/
def isKChar (c : Char) : Bool := isWordChar c || c = '-' || c = '.' || c = ','

/-- Character class `[\w/\.\-]` used for file arguments. -/
def isPathChar (c : Char) : Bool := isWordChar c || c = '/' || c = '.' || c = '-'

/-- Character class `[\w\-]` used for npm script suffixes. -/
def isScriptChar (c : Char) : Bool := isWordChar c || c = '-'

/-- One pytest argument alternative, the inner group of the pytest patterns:
a short flag, a `-k`/`-m` selector, a `--maxfail=N` flag, or a file path. -/
def rxPytestArg : Regex :=
  .alt (rxStr ("-q").toList)
    (.alt (rxStr ("-x").toList)
      (.alt (rxStr ("-s").toList)
        (.alt (.seq (rxStr ("-k").toList) (.seq rxWs (rxPlus (.cls isKChar))))
          (.alt (.seq (rxStr ("-m").toList) (.seq rxWs (rxPlus (.cls isKChar))))
            (.alt (.seq (rxStr ("--maxfail=").toList) (rxPlus (.cls Char.isDigit)))
              (rxPlus (.cls isPathChar)))))))

/-- Model: `(?:\s+ARG)*` tail shared by the two pytest patterns. -/
def rxPytestTail : Regex := .star (.seq rxWs rxPytestArg)

/-- Model: `(?:\s+[\w/\.\-]+)*` tail for ruff/black/mypy. -/
def rxFileTail : Regex := .star (.seq rxWs (rxPlus (.cls isPathChar)))

/-- Model: `(?::[\w\-]+)?` suffix for npm/yarn/pnpm run test scripts. -/
def rxScriptSuffix : Regex := rxOpt (.seq (rxChar ':') (rxPlus (.cls isScriptChar)))

/-- Model: `ALLOWED_COMMANDS` from `cursor_mcp_server.py`, each anchored pattern
transcribed to a `Regex` (`re.fullmatch` supplies the anchoring). -/
def ALLOWED_COMMANDS : List Regex :=
  [ -- ^git\s+status$
    .seq (rxStr ("git").toList) (.seq rxWs (rxStr ("status").toList)),
    -- ^git\s+diff(?:\s+--(staged|cached))?$
    .seq (rxStr ("git").toList)
      (.seq rxWs
        (.seq (rxStr ("diff").toList)
          (rxOpt (.seq rxWs
            (.seq (rxStr ("--").toList)
              (.alt (rxStr ("staged").toList) (rxStr ("cached").toList))))))),
    -- ^pytest(?:\s+ARG)*$
    .seq (rxStr ("pytest").toList) rxPytestTail,
    -- ^python(?:3)?\s+-m\s+pytest(?:\s+ARG)*$
    .seq (rxStr ("python").toList)
      (.seq (rxOpt (rxChar '3'))
        (.seq rxWs
          (.seq (rxStr ("-m").toList)
            (.seq rxWs (.seq (rxStr ("pytest").toList) rxPytestTail))))),
    -- ^python(?:3)?\s+--version$
    .seq (rxStr ("python").toList)
      (.seq (rxOpt (rxChar '3')) (.seq rxWs (rxStr ("--version").toList))),
    -- ^ruff\s+check(?:\s+[\w/\.\-]+)*$
    .seq (rxStr ("ruff").toList) (.seq rxWs (.seq (rxStr ("check").toList) rxFileTail)),
    -- ^black\s+--check(?:\s+[\w/\.\-]+)*$
    .seq (rxStr ("black").toList) (.seq rxWs (.seq (rxStr ("--check").toList) rxFileTail)),
    -- ^mypy(?:\s+[\w/\.\-]+)*$
    .seq (rxStr ("mypy").toList) rxFileTail,
    -- ^node\s+-v$
    .seq (rxStr ("node").toList) (.seq rxWs (rxStr ("-v").toList)),
    -- ^(?:npm|pnpm|yarn)\s+test$
    .seq (.alt (rxStr ("npm").toList) (.alt (rxStr ("pnpm").toList) (rxStr ("yarn").toList)))
      (.seq rxWs (rxStr ("test").toList)),
    -- ^eslint\s+(?:[\w/\.\-]+|\.)+(?:\s+--max-warnings=0)?$
    .seq (rxStr ("eslint").toList)
      (.seq rxWs
        (.seq (rxPlus (.alt (rxPlus (.cls isPathChar)) (rxChar '.')))
          (rxOpt (.seq rxWs (rxStr ("--max-warnings=0").toList))))),
    -- ^npm\s+run\s+test(?::[\w\-]+)?$
    .seq (rxStr ("npm").toList)
      (.seq rxWs (.seq (rxStr ("run").toList)
        (.seq rxWs (.seq (rxStr ("test").toList) rxScriptSuffix)))),
    -- ^yarn\s+run\s+test(?::[\w\-]+)?$
    .seq (rxStr ("yarn").toList)
      (.seq rxWs (.seq (rxStr ("run").toList)
        (.seq rxWs (.seq (rxStr ("test").toList) rxScriptSuffix)))),
    -- ^pnpm\s+run\s+test(?::[\w\-]+)?$
    .seq (rxStr ("pnpm").toList)
      (.seq rxWs (.seq (rxStr ("run").toList)
        (.seq rxWs (.seq (rxStr ("test").toList) rxScriptSuffix))))]

/-- The character class of `_DANGEROUS_CHARS`: semicolon, ampersand, pipe,
angle brackets, backquote (code point 96) and dollar. -/
def DANGEROUS_CHARS : Str := [';', '&', '|', '>', '<', Char.ofNat 96, '$']

/-- Model: `_DANGEROUS_CHARS.search(cmd)` succeeds. -/
def containsDangerous (cmd : Str) : Bool :=
  cmd.any (fun c => DANGEROUS_CHARS.contains c)

/-- Model: `any(p.fullmatch(cmd) for p in _ALLOWED_PATTERNS)`. -/
def matchesWhitelist (cmd : Str) : Bool :=
  ALLOWED_COMMANDS.any (fun r => fullmatch r cmd)

/-- Model: `is_allowed_command` from `cursor_mcp_server.py`. -/
def is_allowed_command (cmd : Str) : Bool :=
  if containsDangerous cmd then false
  else matchesWhitelist cmd

/-! ## Errors

The exception taxonomy raised by the gateway operations
(`PermissionError` for path escape / denylist / command rejection,
`FileNotFoundError`, `FileExistsError`, `ValueError`, `RuntimeError` for
rate limits, `TimeoutError`), keyed by the condition that raises it. -/

inductive Err where
  | rateLimited
  | pathEscape
  | notFound
  | denylisted
  | fileTooBig
  | alreadyExists
  | invalidPattern
  | commandRejected
  | timeout
deriving DecidableEq

deriving instance DecidableEq for Except

def exceptIsOk : Except Err α → Bool
  | .ok _ => true
  | .error _ => false

/-! ## Paths and the workspace sandbox

An absolute path is a list of components below the filesystem root.
`resolveComponents` is `Path.resolve()` on a filesystem without symlinks
(it normalizes `.` and `..`; `..` at the root stays at the root).  For the
sandbox-confinement claim the resolver is kept abstract, which also covers
filesystems with symlinks. -/

abbrev PathC := List Str

def resolveComponents (parts : PathC) : PathC :=
  parts.foldl
    (fun acc comp =>
      if comp = ['.'] then acc
      else if comp = ['.', '.'] then acc.dropLast
      else acc ++ [comp]) []

def splitCharAux (sep : Char) : Str → Str → List Str
  | [], acc => [acc]
  | c :: rest, acc =>
    if c = sep then acc :: splitCharAux sep rest []
    else splitCharAux sep rest (acc ++ [c])

/-- Break a path string into its components (`PurePath` drops empty
segments produced by repeated separators). -/
def parsePath (s : Str) : PathC :=
  (splitCharAux '/' s []).filter (fun comp => ¬comp.isEmpty)

/-- Model: `safe_join`, generic in the canonicalization function `R` (which models
`Path.resolve()`, including whatever symlinks the filesystem holds):
join the workspace root with the candidate components, canonicalize, and
fail with `PathEscape` unless `in_workspace` holds — which itself
re-canonicalizes both sides, exactly as `_is_relative_to` does. -/
def safeJoinWith (R : PathC → PathC) (root : PathC) (parts : PathC) : Except Err PathC :=
  let p := R (root ++ parts)
  if (R root).isPrefixOf (R p) then .ok p else .error .pathEscape

/-- Model: `safe_join` as the gateway uses it, on a symlink-free filesystem. -/
def safe_join (root : PathC) (path : Str) : Except Err PathC :=
  safeJoinWith resolveComponents root (parsePath path)

/-! ## Rational arithmetic helpers

Subtraction and division on `ℚ` written out through `Rat.divInt`, so that
the model evaluates inside the kernel; `qsub_eq_sub` and `qdiv_eq_div`
below prove they are the field operations. -/

def qsub (a b : ℚ) : ℚ := Rat.divInt (a.num * b.den - b.num * a.den) (a.den * b.den)

def qdiv (a b : ℚ) : ℚ := Rat.divInt (a.num * b.den) (a.den * b.num)

/-! ## `FixedWindowRateLimiter` -/

/-- Model: `FixedWindowRateLimiter.allow`: prune events older than the window,
deny if the remaining count reaches `maxOps`, otherwise record `now`.
The pruned list is stored back in both cases, as the Python assignment to
`self.events` does. -/
def allow (maxOps : ℕ) (window : ℚ) (events : List ℚ) (now : ℚ) : Bool × List ℚ :=
  let pruned := events.filter (fun t => qsub now t < window)
  if maxOps ≤ pruned.length then (false, pruned)
  else (true, pruned ++ [now])

structure RateState where
  maxOps : ℕ
  window : ℚ
  events : List ℚ
deriving DecidableEq

def RateState.allowAt (s : RateState) (now : ℚ) : Bool × RateState :=
  let r := allow s.maxOps s.window s.events now
  (r.1, { s with events := r.2 })

/-- A sequence of `allow` calls at the given times, starting from the given
event list; returns the per-call verdicts and the final event list. -/
def runCalls (maxOps : ℕ) (window : ℚ) : List ℚ → List ℚ → List Bool × List ℚ
  | events, [] => ([], events)
  | events, t :: ts =>
    let r := allow maxOps window events t
    let rest := runCalls maxOps window r.2 ts
    (r.1 :: rest.1, rest.2)

/-! ## `ContextTracker` and the summarizer -/

/-- Model: `ContextTracker` (the bounded diagnostic history of summarization
events is observability-only and omitted). -/
structure Tracker where
  maxChars : ℕ
  threshold : ℚ
  enabled : Bool
  current : ℕ
deriving DecidableEq

/-- Model: `ContextTracker.should_summarize`. -/
def Tracker.shouldSummarize (t : Tracker) : Bool :=
  if ¬t.enabled then false
  else decide (t.threshold ≤ qdiv (t.current : ℚ) (t.maxChars : ℚ))

def Tracker.addChars (t : Tracker) (n : ℕ) : Tracker := { t with current := t.current + n }

def Tracker.reset (t : Tracker) : Tracker := { t with current := 0 }

/-- First group of "important" line prefixes
(`^(def|class|async def|@|import|from|# TODO|# FIXME|# NOTE)`). -/
def KEYWORDS1 : List Str :=
  [("def").toList, ("class").toList, ("async def").toList, ("@").toList,
   ("import").toList, ("from").toList, ("# TODO").toList, ("# FIXME").toList,
   ("# NOTE").toList]

/-- Second group (`^\s*(if|for|while|try|except|with|return|yield|raise)`). -/
def KEYWORDS2 : List Str :=
  [("if").toList, ("for").toList, ("while").toList, ("try").toList,
   ("except").toList, ("with").toList, ("return").toList, ("yield").toList,
   ("raise").toList]

/-- A middle line retained by the summarizer: it starts with a group-1
keyword, or with a group-2 keyword after leading whitespace (the keywords
start with non-whitespace letters, so the greedy run of leading whitespace
is exactly what the anchored search consumes). -/
def isImportant (line : Str) : Bool :=
  KEYWORDS1.any (fun k => k.isPrefixOf line) ||
  KEYWORDS2.any (fun k => k.isPrefixOf (line.dropWhile (fun c => isPySpace c)))

/-- Python `lst[::k]` for `k ≥ 1`: every `k`-th element starting at index 0. -/
def strideEvery (l : List Str) (k : ℕ) : List Str :=
  (l.enum.filter (fun p => p.1 % k == 0)).map (fun p => p.2)

def truncMarker : Str := ("\n[... truncated ...]").toList

def marker1Text (nMiddle nKept : ℕ) : Str :=
  ("[... ").toList ++ natToStr nMiddle ++ (" lines summarized to ").toList ++
  natToStr nKept ++ (" key lines ...]").toList

def marker2Text (nMiddle : ℕ) : Str :=
  ("[... ").toList ++ natToStr nMiddle ++ (" lines summarized ...]").toList

/-- Model: `int(total_lines * 0.2)` (exact rational floor; it agrees with the
IEEE double product for every realistically sized input). -/
def keepStartCount (total : ℕ) : ℕ := total * 2 / 10

/-- Model: `int(total_lines * 0.8)`. -/
def keepEndCount (total : ℕ) : ℕ := total * 8 / 10

/-- The `important_lines` list after the even-stride down-sampling
(`important_lines[::max(1, step)]` when over `max_chars // 80` lines).
Note the Python code computes `step = len(important_lines) // max_middle_lines`,
so inputs with `max_chars < 80` and a non-empty retained middle would raise
`ZeroDivisionError`; theorems therefore assume `80 ≤ max_chars`. -/
def importantKept (middle : List Str) (maxChars : ℕ) : List Str :=
  let important := middle.filter isImportant
  let maxMiddleLines := maxChars / 80
  if maxMiddleLines < important.length then
    strideEvery important (max 1 (important.length / maxMiddleLines))
  else important

/-- Model: `middle_summary` after the `max_chars * 0.6` truncation
(`max_chars*0.6` is modelled by the exact rational bound). -/
def middleSummaryOf (middle : List Str) (maxChars : ℕ) : Str :=
  let ms := joinNL (importantKept middle maxChars)
  if maxChars * 6 < ms.length * 10 then ms.take (maxChars * 6 / 10)
  else ms

/-- The middle slice `lines[keep_start:keep_end]`. -/
def middleOf (lines : List Str) : List Str :=
  (lines.take (keepEndCount lines.length)).drop (keepStartCount lines.length)

/-- The assembled summary f-string of `_summarize_text` (before the final
hard truncation): kept head lines, the two markers, the retained middle,
and the kept tail lines, joined by blank lines. -/
def summarizeCore (text : Str) (maxChars : ℕ) : Str :=
  let lines := splitlines text
  let middle := middleOf lines
  joinNL (lines.take (keepStartCount lines.length)) ++ ['\n', '\n'] ++
  marker1Text middle.length (importantKept middle maxChars).length ++ ['\n', '\n'] ++
  middleSummaryOf middle maxChars ++ ['\n', '\n'] ++
  marker2Text middle.length ++ ['\n', '\n'] ++
  joinNL (lines.drop (keepEndCount lines.length))

/-- Model: `_summarize_text(text, max_chars)`: texts within the limit pass
through; otherwise the assembled summary, hard-truncated (with an explicit
marker appended) if still over the limit. -/
def summarize_text (text : Str) (maxChars : ℕ) : Str :=
  if text.length ≤ maxChars then text
  else if maxChars < (summarizeCore text maxChars).length then
    (summarizeCore text maxChars).take maxChars ++ truncMarker
  else summarizeCore text maxChars

/-- The metadata header prepended by `_auto_summarize_if_needed`
(the `%.1f` float rendering and thousands separators of the Python
f-string are abstracted; no verified property depends on this text). -/
def summaryHeader (contextName : Str) (originalSize summarySize : ℕ) : Str :=
  ("[AUTO-SUMMARIZED: ").toList ++ contextName ++ ("]\n[Original: ").toList ++
  natToStr originalSize ++ (" chars, summary: ").toList ++
  natToStr summarySize ++ (" chars]\n\n").toList

/-- Model: `_auto_summarize_if_needed(content, context_name)` acting on the
tracker: add the content's size, and when the threshold is reached emit a
summary (targeting 30% of the tracker budget), reset the counter and
re-account the summary's own size. -/
def auto_summarize_if_needed (tr : Tracker) (content contextName : Str) : Str × Tracker :=
  if ¬tr.enabled then (content, tr)
  else
    let tr1 := tr.addChars content.length
    if tr1.shouldSummarize then
      let summary := summarize_text content (tr1.maxChars * 3 / 10)
      let tr2 := (tr1.reset).addChars summary.length
      (summaryHeader contextName content.length summary.length ++ summary, tr2)
    else (content, tr1)

/-! ## Audit log

`write_audit` appends one entry per call; rotation and write failures are
internal to the log file and swallowed, so the in-process sequence of
appended entries is what the model records.  The `args`/`meta` payloads
carry no control flow and are omitted. -/

structure AuditEntry where
  ts : ℚ
  tool : Str
  ok : Bool
deriving DecidableEq

/-! ## The gateway state and operations -/

structure Gateway where
  root : PathC
  files : List (PathC × Str)
  dirs : List PathC
  maxFileBytes : ℕ
  rateRead : RateState
  rateWrite : RateState
  rateCmd : RateState
  tracker : Tracker
  audit : List AuditEntry
deriving DecidableEq

def lookupFile : List (PathC × Str) → PathC → Option Str
  | [], _ => none
  | e :: rest, p => if e.1 = p then some e.2 else lookupFile rest p

def setFile : List (PathC × Str) → PathC → Str → List (PathC × Str)
  | [], p, c => [(p, c)]
  | e :: rest, p, c => if e.1 = p then (p, c) :: rest else e :: setFile rest p c

def appendAudit (g : Gateway) (e : AuditEntry) : Gateway :=
  { g with audit := g.audit ++ [e] }

/-- Model: `abs_path.relative_to(WORKSPACE_DIR).as_posix()`. -/
def Gateway.relOf (g : Gateway) (p : PathC) : Str := joinSlash (p.drop g.root.length)

def ancestors (p : PathC) : List PathC :=
  (List.range p.length).map (fun i => p.take (i + 1))

/-- Model: `Path.mkdir(parents=True, ...)` when the directory is absent: create it
together with its missing ancestors. -/
def mkdirParents (dirs : List PathC) (p : PathC) : List PathC :=
  dirs ++ (ancestors p).filter (fun d => ¬dirs.contains d)

def read_file_tool : Str := ("read_file").toList
def write_file_tool : Str := ("write_file").toList
def run_command_tool : Str := ("run_command").toList
def search_code_tool : Str := ("search_code").toList

/-- The `read_file` tool.  Ordering as in the source: rate check,
`safe_join`, `is_file`, denylist check, guarded read, auto-summarize,
audit.  Only exceptions raised inside the `try` block (the oversized-file
`ValueError` here) produce a failure audit entry; the sandbox and denylist
errors are raised before it. -/
def read_file (g : Gateway) (path : Str) (allow_denied_explicit : Bool) (now : ℚ) :
    Except Err Str × Gateway :=
  let r := g.rateRead.allowAt now
  let g1 := { g with rateRead := r.2 }
  if ¬r.1 then (.error .rateLimited, g1)
  else
    match safe_join g.root path with
    | .error e => (.error e, g1)
    | .ok p =>
      match lookupFile g1.files p with
      | none => (.error .notFound, g1)
      | some content =>
        let rel := g1.relOf p
        if denylisted rel && !allow_denied_explicit then (.error .denylisted, g1)
        else if g1.maxFileBytes < content.length then
          (.error .fileTooBig, appendAudit g1 { ts := now, tool := read_file_tool, ok := false })
        else
          let st := auto_summarize_if_needed g1.tracker content (("file:").toList ++ path)
          let g2 := { g1 with tracker := st.2 }
          (.ok st.1, appendAudit g2 { ts := now, tool := read_file_tool, ok := true })

inductive WriteOutcome where
  | preview (relPath : Str) (bytes : ℕ) (mode : Str)
  | applied
deriving DecidableEq

/-- The `write_file` tool.  With `require_confirmation` a preview plan is
returned after the rate and sandbox checks; otherwise the apply phase runs
`parent.mkdir(parents=True, exist_ok=create_dirs)` (which raises
`FileExistsError` when the parent exists and `create_dirs` is false, and
creates missing ancestors otherwise), then honors the mode.  `write_file`
has no `try` block, so its errors are never audited. -/
def write_file (g : Gateway) (path content mode : Str)
    (require_confirmation create_dirs : Bool) (now : ℚ) :
    Except Err WriteOutcome × Gateway :=
  let r := g.rateWrite.allowAt now
  let g1 := { g with rateWrite := r.2 }
  if ¬r.1 then (.error .rateLimited, g1)
  else
    match safe_join g.root path with
    | .error e => (.error e, g1)
    | .ok p =>
      let rel := g1.relOf p
      if require_confirmation then
        (.ok (.preview rel content.length mode),
         appendAudit g1 { ts := now, tool := write_file_tool, ok := true })
      else
        let parent := p.dropLast
        if g1.dirs.contains parent && !create_dirs then (.error .alreadyExists, g1)
        else
          let g2 :=
            if g1.dirs.contains parent then g1
            else { g1 with dirs := mkdirParents g1.dirs parent }
          let fileExists := (lookupFile g2.files p).isSome || g2.dirs.contains p
          if (mode == ("create").toList) && fileExists then (.error .alreadyExists, g2)
          else if (mode == ("append").toList) && fileExists then
            let oldC := (lookupFile g2.files p).getD []
            let g3 := { g2 with files := setFile g2.files p (oldC ++ content) }
            (.ok .applied, appendAudit g3 { ts := now, tool := write_file_tool, ok := true })
          else
            let g3 := { g2 with files := setFile g2.files p content }
            (.ok .applied, appendAudit g3 { ts := now, tool := write_file_tool, ok := true })

/-- One `write_file` invocation's arguments, for iterating calls. -/
structure WriteCall where
  path : Str
  content : Str
  mode : Str
  createDirs : Bool
  now : ℚ

/-- A sequence of preview-phase (`require_confirmation=true`) `write_file`
calls, threading the gateway state. -/
def applyPreviewWrites (g : Gateway) : List WriteCall → Gateway
  | [] => g
  | c :: cs =>
    applyPreviewWrites (write_file g c.path c.content c.mode true c.createDirs c.now).2 cs

/-- Outcome of the spawned subprocess under `asyncio.wait_for`:
either the timeout fired, or the process completed with a return code and
permissively decoded output.  Abstracts `create_subprocess_shell`. -/
inductive ExecOutcome where
  | timeout
  | done (returncode : ℤ) (stdout stderr : Str)

structure CmdResult where
  returncode : ℤ
  stdout : Str
  stderr : Str
deriving DecidableEq

/-- Python `str.strip()`. -/
def pyStrip (s : Str) : Str :=
  ((s.dropWhile (fun c => isPySpace c)).reverse.dropWhile (fun c => isPySpace c)).reverse

/-- Python `command.split(None, 1)`: first whitespace-delimited token and
the remainder (with the delimiter run skipped), if any. -/
def splitNone1 (s : Str) : Str × Option Str :=
  let s1 := s.dropWhile (fun c => isPySpace c)
  let tok := s1.takeWhile (fun c => ¬isPySpace c)
  let rest := (s1.drop tok.length).dropWhile (fun c => isPySpace c)
  (tok, if rest.isEmpty then none else some rest)

/-- The `--no-pager` injection for git commands in `run_command`. -/
def addNoPager (command : Str) : Str :=
  if (("git ").toList).isPrefixOf (pyStrip command) &&
     !(decide (List.IsInfix (("--no-pager").toList) command)) then
    match splitNone1 command with
    | (tok, some rest) => tok ++ (" --no-pager ").toList ++ rest
    | (_, none) => command ++ (" --no-pager").toList
  else command

/-- The `run_command` tool.  Rate check, whitelist validation (failing fast
with `CommandRejected` before any spawn, and before the `try` block, so it
is not audited), pager-flag injection, then the supervised execution whose
outcome is given by the `exec` oracle.  A timeout and a completion are the
audited outcomes; the audit `ok` flag is `returncode == 0`.  The watcher
is logging-only and omitted. -/
def run_command (g : Gateway) (command : Str) (timeout_seconds : ℕ)
    (exec : Str → ℕ → ExecOutcome) (now : ℚ) :
    Except Err CmdResult × Gateway :=
  let r := g.rateCmd.allowAt now
  let g1 := { g with rateCmd := r.2 }
  if ¬r.1 then (.error .rateLimited, g1)
  else if ¬is_allowed_command command then (.error .commandRejected, g1)
  else
    let cmd2 := addNoPager command
    match exec cmd2 timeout_seconds with
    | .timeout =>
      (.error .timeout, appendAudit g1 { ts := now, tool := run_command_tool, ok := false })
    | .done rc out err =>
      (.ok { returncode := rc, stdout := out, stderr := err },
       appendAudit g1 { ts := now, tool := run_command_tool, ok := decide (rc = 0) })

structure Hit where
  file : Str
  line : ℕ
  matchText : Str
  context : Str
deriving DecidableEq

/-- Build one search hit (line number, context snippet) for a match at
character offset `m.1` with matched text `m.2`. -/
def mkHit (rel text : Str) (contextLines : ℕ) (m : ℕ × Str) : Hit :=
  let lns := splitlines text
  let lineNo := (text.take m.1).count '\n' + 1
  let lo := max 1 (lineNo - contextLines)
  let hi := min lns.length (lineNo + contextLines)
  { file := rel, line := lineNo, matchText := m.2,
    context := joinNL ((lns.drop (lo - 1)).take (hi - (lo - 1))) }

/-- The inner match loop of `search_code` for one file: append a hit for
each match, breaking once the running list has reached `max_results`.
Note the append happens before the bound check. -/
def fileLoop (rel text : Str) (maxResults contextLines : ℕ) :
    List (ℕ × Str) → List Hit → List Hit
  | [], hits => hits
  | m :: rest, hits =>
    let hits2 := hits ++ [mkHit rel text contextLines m]
    if maxResults ≤ hits2.length then hits2
    else fileLoop rel text maxResults contextLines rest hits2

/-- Files of the hit list in first-occurrence order (Python dict insertion
order). -/
def hitFilesDedup (hits : List Hit) : List Str :=
  hits.foldl (fun acc h => if acc.contains h.file then acc else acc ++ [h.file]) []

def hitsForFile (hits : List Hit) (f : Str) : List Hit :=
  hits.filter (fun h => h.file == f)

/-- Stable insertion (descending by match count), modelling Python's
stable `sorted(..., key=len, reverse=True)`. -/
def insertDesc (x : Str × List Hit) : List (Str × List Hit) → List (Str × List Hit)
  | [] => [x]
  | y :: ys => if y.2.length < x.2.length then x :: y :: ys else y :: insertDesc x ys

/-- The result re-aggregation applied by `search_code` when the context
tracker is at threshold: top 5 files by match count, at most 10 hits each,
plus one marker entry for the remaining files. -/
def summarizeHitGroups (hits : List Hit) : List Hit :=
  let groups := (hitFilesDedup hits).map (fun f => (f, hitsForFile hits f))
  let sortedG := groups.foldl (fun acc x => insertDesc x acc) []
  let top := sortedG.take 5
  let other := sortedG.drop 5
  let kept := top.foldl (fun acc fg => acc ++ fg.2.take 10) []
  if other.isEmpty then kept
  else
    let otherCount := (other.map (fun fg => fg.2.length)).sum
    kept ++
      [{ file := ("[").toList ++ natToStr other.length ++ (" other files]").toList,
         line := 0,
         matchText := ("... ").toList ++ natToStr otherCount ++ (" more matches in ").toList ++
           natToStr other.length ++ (" files ...").toList,
         context := ("Summarized: ").toList ++ natToStr otherCount ++ (" matches across ").toList ++
           natToStr other.length ++ (" files (showing top 5 files only)").toList }]

/-- Size of `json.dumps(hits)` as accounted by the tracker, abstracted to
a concrete measure of the rendered fields. -/
def sizeOfHits (hits : List Hit) : ℕ :=
  (hits.map (fun h => h.file.length + h.matchText.length + h.context.length + 8)).sum

/-- The body of the outer file loop of `search_code` for one file:
skip it if denylisted, glob-mismatched or over the read size limit,
otherwise run the inner match loop on it. -/
def searchStep (root : PathC) (maxBytes : ℕ) (finditer : Str → List (ℕ × Str))
    (file_glob : Str) (max_results context_lines : ℕ)
    (hits : List Hit) (pf : PathC × Str) : List Hit :=
  let rel := joinSlash (pf.1.drop root.length)
  if denylisted rel then hits
  else if ¬fnmatch rel file_glob then hits
  else if maxBytes < pf.2.length then hits
  else fileLoop rel pf.2 max_results context_lines (finditer pf.2) hits

/-- A file contributes at least one hit exactly when it passes the
denylist, glob and size guards and the pattern matches at least once. -/
def contributesHit (root : PathC) (maxBytes : ℕ) (finditer : Str → List (ℕ × Str))
    (file_glob : Str) (pf : PathC × Str) : Bool :=
  let rel := joinSlash (pf.1.drop root.length)
  !denylisted rel && fnmatch rel file_glob &&
  !(decide (maxBytes < pf.2.length)) && !(finditer pf.2).isEmpty

/-- Length of an `ok` search result (0 for an error). -/
def resultLength : Except Err (List Hit) → ℕ
  | .ok hs => hs.length
  | .error _ => 0

/-- The `search_code` tool.  `compiled` models the result of
`re.compile(query)`: `none` is a `re.error` (→ `InvalidPattern`, raised
after the rate check but before any file is visited), and `some finditer`
gives the match list of the compiled pattern on a text.  Files whose
guarded read fails (over the byte limit) are skipped.  The outer loop
over files never breaks; only the inner loop does. -/
def search_code (g : Gateway) (compiled : Option (Str → List (ℕ × Str)))
    (file_glob : Str) (max_results context_lines : ℕ) (now : ℚ) :
    Except Err (List Hit) × Gateway :=
  let r := g.rateRead.allowAt now
  let g1 := { g with rateRead := r.2 }
  if ¬r.1 then (.error .rateLimited, g1)
  else
    match compiled with
    | none => (.error .invalidPattern, g1)
    | some finditer =>
      let hits := g1.files.foldl
        (searchStep g1.root g1.maxFileBytes finditer file_glob max_results context_lines) []
      let hsTr :=
        if g1.tracker.shouldSummarize && !hits.isEmpty then
          let hits2 := summarizeHitGroups hits
          (hits2, (g1.tracker.reset).addChars (sizeOfHits hits2))
        else (hits, g1.tracker)
      let g2 := { g1 with tracker := hsTr.2 }
      (.ok hsTr.1, appendAudit g2 { ts := now, tool := search_code_tool, ok := true })

/-! ## The plain-HTTP binding (`http_mcp_bridge.py`) -/

def MCP_HTTP_TOKEN : Str :=
  ("3f7a1c2e5d8b9f0a4c7e2d1b6a5f9c8e7d0b3a6c5e1f2d4b7c9a0e3f6d1b2c4").toList

/-- Model: `verify_token`: falsy token fails, otherwise simple equality against
the configured secret. -/
def verify_token (token : Str) : Bool :=
  if token.isEmpty then false else token == MCP_HTTP_TOKEN

def knownTools : List Str :=
  [("read_file").toList, ("list_files").toList, ("write_file").toList,
   ("run_command").toList, ("get_diagnostics").toList, ("search_code").toList,
   ("reset_context").toList]

/-- A raised Python exception inside the handler: either a FastAPI
`HTTPException` (carrying a status) or any other exception. -/
inductive PyExc where
  | httpExc (status : ℕ) (detail : Str)
  | otherExc (msg : Str)
deriving DecidableEq

def excDetail : PyExc → Str
  | .httpExc _ d => d
  | .otherExc m => m

/-- Model: `MCPHTTPHandler.handle_request`.  The body dispatches on the method;
an unknown tool raises `HTTPException(404)` — but the whole body sits in a
`try` whose `except Exception` re-raises everything as
`HTTPException(500)`, `HTTPException` included.  `toolExec` abstracts the
invoked tool handler (its error is any exception it raises). -/
def handle_request (toolExec : Str → Except Str Unit) (method name : Str) :
    Except PyExc Unit :=
  let inner : Except PyExc Unit :=
    if method == ("tools/call").toList then
      if knownTools.contains name then
        match toolExec name with
        | .ok _ => .ok ()
        | .error e => .error (.otherExc e)
      else .error (.httpExc 404 (("Tool not found: ").toList ++ name))
    else if method == ("tools/list").toList then .ok ()
    else if method == ("resources/list").toList then .ok ()
    else if method == ("prompts/list").toList then .ok ()
    else .error (.httpExc 400 (("Unknown method: ").toList ++ method))
  match inner with
  | .ok u => .ok u
  | .error e => .error (.httpExc 500 (excDetail e))

/-- The `POST /mcp/tool/{tool_name}` endpoint: token gate (401 on
mismatch, with a failure audit entry), a request audit entry, then
`handle_request("tools/call", ...)`; a raised `HTTPException` becomes the
response status, success is 200.  Returns the status and the audit
entries the endpoint wrote. -/
def mcp_tool (token name : Str) (toolExec : Str → Except Str Unit) : ℕ × List AuditEntry :=
  if ¬verify_token token then
    (401, [{ ts := 0, tool := ("http_mcp").toList, ok := false }])
  else
    let entries : List AuditEntry := [{ ts := 0, tool := ("http_mcp").toList, ok := true }]
    match handle_request toolExec ("tools/call").toList name with
    | .ok _ => (200, entries)
    | .error (.httpExc s _) => (s, entries)
    | .error (.otherExc _) => (500, entries)

/-! ## Concrete states and oracles used by scenario theorems -/

def defaultTracker : Tracker :=
  { maxChars := 100000, threshold := Rat.divInt 85 100, enabled := true, current := 0 }

def freshRate (m : ℕ) (w : ℚ) : RateState := { maxOps := m, window := w, events := [] }

def wsRoot : PathC := [("ws").toList]

/-- Scenario A of the spec: a workspace holding `README.md` and `.env`. -/
def scenarioA : Gateway :=
  { root := wsRoot,
    files := [(wsRoot ++ [("README.md").toList], ("Hello Workspace").toList),
              (wsRoot ++ [(".env").toList], ("SECRET=1").toList)],
    dirs := [wsRoot],
    maxFileBytes := 2000000,
    rateRead := freshRate 100 3600,
    rateWrite := freshRate 50 3600,
    rateCmd := freshRate 20 3600,
    tracker := defaultTracker,
    audit := [] }

/-- Scenario A extended with a denylisted file inside a subdirectory. -/
def scenarioB : Gateway :=
  { scenarioA with
    files := scenarioA.files ++ [(wsRoot ++ [("sub").toList, (".env").toList], ("S=1").toList)],
    dirs := [wsRoot, wsRoot ++ [("sub").toList]] }

/-- Two one-character files in a subdirectory, for the search-cap
counterexample. -/
def searchGw : Gateway :=
  { scenarioA with
    files := [(wsRoot ++ [("d").toList, ("a.txt").toList], ['x']),
              (wsRoot ++ [("d").toList, ("b.txt").toList], ['x'])],
    dirs := [wsRoot, wsRoot ++ [("d").toList]] }

/-- Match oracle for the pattern `x`: one match on the text `"x"`. -/
def xFinditer : Str → List (ℕ × Str) :=
  fun t => if t == ['x'] then [(0, ['x'])] else []

/-- A tool handler that always succeeds, for the HTTP-status theorem. -/
def okExec : Str → Except Str Unit := fun _ => .ok ()

/-- A subprocess oracle that completes immediately with return code 0. -/
def execDone : Str → ℕ → ExecOutcome := fun _ _ => .done 0 [] []

/-- A 20-character single-line text (used against a bound of 10). -/
def c7badText : Str := List.replicate 20 'a'

def c7line : Str := List.replicate 20 'a'

/-- Ten 20-character lines: 209 characters against a bound of 180. -/
def c7text : Str := joinNL (List.replicate 10 c7line)

/-! # Theorems -/

/-- The model's kernel-computable rational subtraction is subtraction. -/
theorem qsub_eq_sub (a b : ℚ) : qsub a b = a - b := by
  have ha : ((a.den : ℚ)) ≠ 0 := Nat.cast_ne_zero.mpr a.den_nz
  have hb : ((b.den : ℚ)) ≠ 0 := Nat.cast_ne_zero.mpr b.den_nz
  unfold qsub
  rw [Rat.divInt_eq_div]
  conv_rhs => rw [← Rat.num_div_den a, ← Rat.num_div_den b]
  rw [div_sub_div _ _ ha hb]
  push_cast
  ring_nf

/-- The model's kernel-computable rational division is division. -/
theorem qdiv_eq_div (a b : ℚ) : qdiv a b = a / b := by
  unfold qdiv
  rw [Rat.divInt_eq_div]
  by_cases hbn : b.num = 0
  · have hb0 : b = 0 := Rat.num_eq_zero.mp hbn
    simp [hbn, hb0]
  · have ha : ((a.den : ℚ)) ≠ 0 := Nat.cast_ne_zero.mpr a.den_nz
    have hb : ((b.den : ℚ)) ≠ 0 := Nat.cast_ne_zero.mpr b.den_nz
    have hbn' : ((b.num : ℚ)) ≠ 0 := Int.cast_ne_zero.mpr hbn
    conv_rhs => rw [← Rat.num_div_den a, ← Rat.num_div_den b]
    push_cast
    rw [div_div_div_comm]
    field_simp
    exact Or.inl (mul_comm _ _)

/-- Claim C1. For every candidate relative path, sandbox resolution
(`safe_join`) either raises `PathEscape` or returns a path whose
canonicalization has the workspace root as a prefix — it never returns a
path outside the workspace root.  Stated for an arbitrary resolver `R`
(covering symlinks) with a canonical root, and for the gateway's
symlink-free `safe_join`. -/
theorem c1_safe_join_confined :
    (∀ (R : PathC → PathC) (root parts p : PathC),
      R root = root → safeJoinWith R root parts = Except.ok p →
      root.isPrefixOf (R p) = true) ∧
    (∀ (root : PathC) (path : Str) (p : PathC),
      resolveComponents root = root → safe_join root path = Except.ok p →
      root.isPrefixOf (resolveComponents p) = true) := by
  have h1 : ∀ (R : PathC → PathC) (root parts p : PathC),
      R root = root → safeJoinWith R root parts = Except.ok p →
      root.isPrefixOf (R p) = true := by
    intro R root parts p hroot h
    simp only [safeJoinWith] at h
    split at h
    · rename_i hcond
      injection h with h
      subst h
      rwa [hroot] at hcond
    · exact absurd h (by simp)
  exact ⟨h1, fun root path p hroot h => h1 resolveComponents root (parsePath path) p hroot h⟩

/-- Witness for C1 at concrete inputs containing a `..` component. -/
theorem c1_witness :
    resolveComponents wsRoot = wsRoot ∧
    safeJoinWith resolveComponents wsRoot [("a").toList, ("..").toList, ("b").toList] =
      Except.ok [("ws").toList, ("b").toList] ∧
    wsRoot.isPrefixOf (resolveComponents [("ws").toList, ("b").toList]) = true ∧
    safe_join wsRoot (("docs/../notes.txt").toList) =
      Except.ok [("ws").toList, ("notes.txt").toList] ∧
    wsRoot.isPrefixOf (resolveComponents [("ws").toList, ("notes.txt").toList]) = true :=
  ⟨by decide, by decide,
   c1_safe_join_confined.1 resolveComponents wsRoot
     [("a").toList, ("..").toList, ("b").toList]
     [("ws").toList, ("b").toList] (by decide) (by decide),
   by decide,
   c1_safe_join_confined.2 wsRoot (("docs/../notes.txt").toList)
     [("ws").toList, ("notes.txt").toList] (by decide) (by decide)⟩

/-- Claim C2. (The claim says `readFile(".env")` fails with `Denylisted`;
the code disagrees.)  In Scenario A, `readFile("README.md")` does return
`"Hello Workspace"`, but `readFile(".env")` returns the secret content:
the deny pattern `**/.env*` requires a `/` before `.env` under `fnmatch`,
so the root-level `.env` is not denylisted, while `sub/.env` is. -/
theorem c2_env_not_denylisted :
    (read_file scenarioA (("README.md").toList) false 0).1 =
      Except.ok (("Hello Workspace").toList) ∧
    (read_file scenarioA ((".env").toList) false 0).1 =
      Except.ok (("SECRET=1").toList) ∧
    denylisted ((".env").toList) = false ∧
    denylisted (("sub/.env").toList) = true :=
  ⟨by decide, by decide, by decide, by decide⟩

/-- Claim C3. Any command containing a denylisted character is rejected by
`is_allowed_command` regardless of the whitelist; in particular
`"git status; rm -rf /"` is rejected; and every permitted command fully
matches at least one whitelist pattern. -/
theorem c3_command_validator :
    (∀ cmd : Str, containsDangerous cmd = true → is_allowed_command cmd = false) ∧
    is_allowed_command (("git status; rm -rf /").toList) = false ∧
    (∀ cmd : Str, is_allowed_command cmd = true → matchesWhitelist cmd = true) := by
  refine ⟨?_, by decide, ?_⟩
  · intro cmd h
    simp [is_allowed_command, h]
  · intro cmd h
    unfold is_allowed_command at h
    split at h
    · exact absurd h (by simp)
    · exact h

/-- Witness for C3: the injection attempt trips the character check, and
`"git status"` is permitted with a full whitelist match. -/
theorem c3_witness :
    containsDangerous (("git status; rm -rf /").toList) = true ∧
    is_allowed_command (("git status; rm -rf /").toList) = false ∧
    is_allowed_command (("git status").toList) = true ∧
    matchesWhitelist (("git status").toList) = true :=
  ⟨by decide,
   c3_command_validator.1 (("git status; rm -rf /").toList) (by decide),
   by decide,
   c3_command_validator.2.2 (("git status").toList) (by decide)⟩

/-- Model: `allow` with no event outside the window: nothing is pruned. -/
theorem allow_within (maxOps : ℕ) (W : ℚ) (acc : List ℚ) (t : ℚ)
    (h : ∀ a ∈ acc, qsub t a < W) :
    allow maxOps W acc t =
      if maxOps ≤ acc.length then (false, acc) else (true, acc ++ [t]) := by
  have hfil : acc.filter (fun a => decide (qsub t a < W)) = acc :=
    List.filter_eq_self.mpr (fun a ha => decide_eq_true (h a ha))
  simp only [allow, hfil]

/-- A run of `allow` calls all lying within one window of each other:
the `i`-th call (counting the `acc.length` events already recorded) is
permitted exactly while the total stays below `maxOps`, and exactly the
first `maxOps - acc.length` call times are recorded. -/
theorem runCalls_within (maxOps : ℕ) (W : ℚ) :
    ∀ (ts acc : List ℚ),
      (∀ a, (a ∈ acc ∨ a ∈ ts) → ∀ b, (b ∈ acc ∨ b ∈ ts) → qsub a b < W) →
      runCalls maxOps W acc ts =
        ((List.range ts.length).map (fun i => decide (acc.length + i < maxOps)),
         acc ++ ts.take (maxOps - acc.length))
  | [], acc, _ => by simp [runCalls]
  | t :: ts', acc, H => by
    have hprune : ∀ a ∈ acc, qsub t a < W :=
      fun a ha => H t (Or.inr (List.mem_cons_self t ts')) a (Or.inl ha)
    simp only [runCalls]
    rw [allow_within maxOps W acc t hprune]
    by_cases hge : maxOps ≤ acc.length
    · rw [if_pos hge]
      have H' : ∀ a, (a ∈ acc ∨ a ∈ ts') → ∀ b, (b ∈ acc ∨ b ∈ ts') → qsub a b < W := by
        intro a ha b hb
        exact H a (ha.imp id (List.mem_cons_of_mem t)) b (hb.imp id (List.mem_cons_of_mem t))
      rw [runCalls_within maxOps W ts' acc H']
      have h0 : maxOps - acc.length = 0 := Nat.sub_eq_zero_of_le hge
      have hres : (false : Bool) :: (List.range ts'.length).map
            (fun i => decide (acc.length + i < maxOps)) =
          (List.range (ts'.length + 1)).map (fun i => decide (acc.length + i < maxOps)) := by
        rw [List.range_succ_eq_map, List.map_cons, List.map_map]
        have h1 : decide (acc.length + 0 < maxOps) = false := by
          simp; omega
        have h2 : ((fun i => decide (acc.length + i < maxOps)) ∘ Nat.succ) =
            fun i => decide (acc.length + i < maxOps) := by
          funext i
          simp only [Function.comp_apply]
          have : ¬acc.length + (i + 1) < maxOps := by omega
          have h3 : ¬acc.length + i < maxOps := by omega
          simp [this, h3]
        rw [h1, h2]
      rw [h0] at *
      simp only [List.length_cons, List.take_zero, List.append_nil] at *
      exact Prod.ext (by rw [← hres]) rfl
    · rw [if_neg hge]
      have hlt : acc.length < maxOps := Nat.lt_of_not_le hge
      have H'' : ∀ a, (a ∈ acc ++ [t] ∨ a ∈ ts') → ∀ b, (b ∈ acc ++ [t] ∨ b ∈ ts') →
          qsub a b < W := by
        intro a ha b hb
        apply H
        · rcases ha with ha | ha
          · rcases List.mem_append.mp ha with ha | ha
            · exact Or.inl ha
            · simp only [List.mem_singleton] at ha
              exact Or.inr (ha ▸ List.mem_cons_self t ts')
          · exact Or.inr (List.mem_cons_of_mem t ha)
        · rcases hb with hb | hb
          · rcases List.mem_append.mp hb with hb | hb
            · exact Or.inl hb
            · simp only [List.mem_singleton] at hb
              exact Or.inr (hb ▸ List.mem_cons_self t ts')
          · exact Or.inr (List.mem_cons_of_mem t hb)
      rw [runCalls_within maxOps W ts' (acc ++ [t]) H'']
      have hres : (true : Bool) :: (List.range ts'.length).map
            (fun i => decide ((acc ++ [t]).length + i < maxOps)) =
          (List.range (ts'.length + 1)).map (fun i => decide (acc.length + i < maxOps)) := by
        rw [List.range_succ_eq_map, List.map_cons, List.map_map]
        have h1 : decide (acc.length + 0 < maxOps) = true := by
          simp; omega
        have h2 : ((fun i => decide (acc.length + i < maxOps)) ∘ Nat.succ) =
            fun i => decide ((acc ++ [t]).length + i < maxOps) := by
          funext i
          simp only [Function.comp_apply, List.length_append, List.length_singleton]
          exact decide_eq_decide.mpr (by omega)
        rw [h1, h2]
      have hev : (acc ++ [t]) ++ ts'.take (maxOps - (acc ++ [t]).length) =
          acc ++ (t :: ts').take (maxOps - acc.length) := by
        have h3 : maxOps - acc.length = (maxOps - (acc.length + 1)) + 1 := by omega
        rw [h3, List.take_succ_cons, List.append_assoc]
        simp
      simp only [List.length_cons]
      exact Prod.ext (by dsimp only; rw [← hres]) (by dsimp only; exact hev)

/-- For a full window (`es.length = maxOps`), a call is permitted exactly
when some recorded event has aged at least the window out. -/
theorem allow_true_iff (N : ℕ) (W : ℚ) (es : List ℚ) (now : ℚ) (hlen : es.length = N) :
    ((allow N W es now).1 = true ↔ ∃ t ∈ es, W ≤ qsub now t) := by
  have key : (allow N W es now).1 = true ↔
      (es.filter (fun t => decide (qsub now t < W))).length < N := by
    simp only [allow]
    split
    · rename_i hle
      simp only [Bool.false_eq_true, false_iff]
      omega
    · rename_i hgt
      simp only [true_iff]
      omega
  rw [key, ← hlen, List.length_filter_lt_length_iff_exists]
  simp [not_lt]

/-- For a sorted full window, permission is exactly the oldest (head)
event having aged past the window. -/
theorem allow_sorted_head (N : ℕ) (W : ℚ) (es : List ℚ) (now t0 : ℚ)
    (hlen : es.length = N) (hs : es.Sorted (· ≤ ·)) (hh : es.head? = some t0) :
    ((allow N W es now).1 = true ↔ W ≤ qsub now t0) := by
  rw [allow_true_iff N W es now hlen]
  constructor
  · rintro ⟨t, ht, hWt⟩
    have ht0 : t0 ≤ t := by
      cases es with
      | nil => exact absurd hh (by simp)
      | cons x xs =>
        have hx : x = t0 := by simpa using hh
        rcases List.mem_cons.mp ht with h | h
        · exact le_of_eq (hx ▸ h.symm)
        · exact hx ▸ (List.sorted_cons.mp hs).1 t h
    calc W ≤ qsub now t := hWt
      _ ≤ qsub now t0 := by
        rw [qsub_eq_sub, qsub_eq_sub]
        exact sub_le_sub_left ht0 now
  · intro h
    exact ⟨t0, List.mem_of_mem_head? hh, h⟩

/-- When exactly one event of a full window has aged out, one call is
permitted and an immediately repeated call at the same instant is denied:
capacity returns one slot at a time. -/
theorem allow_one_slot (N : ℕ) (W : ℚ) (es : List ℚ) (now : ℚ)
    (hN : 0 < N) (hW : 0 < W) (hlen : es.length = N)
    (hfil : (es.filter (fun t => decide (qsub now t < W))).length = N - 1) :
    (allow N W es now).1 = true ∧ (allow N W (allow N W es now).2 now).1 = false := by
  have h1 : allow N W es now =
      (true, es.filter (fun t => decide (qsub now t < W)) ++ [now]) := by
    simp only [allow]
    rw [if_neg (by omega)]
  refine ⟨by rw [h1], ?_⟩
  rw [h1]
  have hidem : (es.filter (fun t => decide (qsub now t < W))).filter
      (fun t => decide (qsub now t < W)) = es.filter (fun t => decide (qsub now t < W)) := by
    rw [List.filter_filter]
    simp
  have hnow : qsub now now < W := by
    rw [qsub_eq_sub, sub_self]
    exact hW
  have hsing : [now].filter (fun t => decide (qsub now t < W)) = [now] := by
    simp [hnow]
  simp only [allow, List.filter_append, hidem, hsing]
  rw [if_pos (by simp [hfil]; omega)]

/-- Claim C5. With `maxOps = N` and window `W`: starting fresh, `N + 1`
calls within one window see the first `N` permitted and the last denied
with no event recorded for it (first conjunct); a call against a full
window is permitted exactly when some event aged past `W` (second), for a
sorted window exactly when the oldest did (third); and when exactly the
oldest slot has aged out, one call is permitted and an immediate repeat is
denied — capacity returns one slot at a time (fourth). -/
theorem c5_rate_limiter :
    (∀ (N : ℕ) (W : ℚ) (times : List ℚ),
      times.length = N + 1 →
      (∀ a ∈ times, ∀ b ∈ times, qsub a b < W) →
      runCalls N W [] times = (List.replicate N true ++ [false], times.take N)) ∧
    (∀ (N : ℕ) (W : ℚ) (es : List ℚ) (now : ℚ), es.length = N →
      ((allow N W es now).1 = true ↔ ∃ t ∈ es, W ≤ qsub now t)) ∧
    (∀ (N : ℕ) (W : ℚ) (es : List ℚ) (now t0 : ℚ),
      es.length = N → es.Sorted (· ≤ ·) → es.head? = some t0 →
      ((allow N W es now).1 = true ↔ W ≤ qsub now t0)) ∧
    (∀ (N : ℕ) (W : ℚ) (es : List ℚ) (now : ℚ),
      0 < N → 0 < W → es.length = N →
      (es.filter (fun t => decide (qsub now t < W))).length = N - 1 →
      (allow N W es now).1 = true ∧ (allow N W (allow N W es now).2 now).1 = false) := by
  refine ⟨?_, allow_true_iff, allow_sorted_head, allow_one_slot⟩
  intro N W times hlen H
  have H' : ∀ a, (a ∈ times ∨ a ∈ ([] : List ℚ)) → ∀ b, (b ∈ times ∨ b ∈ ([] : List ℚ)) →
      qsub a b < W := by
    intro a ha b hb
    simp only [List.not_mem_nil, or_false] at ha hb
    exact H a ha b hb
  have := runCalls_within N W times []
    (by intro a ha b hb; exact H' a ha.symm b hb.symm)
  rw [this]
  refine Prod.ext ?_ (by simp)
  simp only [List.length_nil, List.nil_append, zero_add, hlen]
  rw [List.range_succ, List.map_append]
  have h1 : (List.range N).map (fun i => decide (i < N)) = List.replicate N true := by
    rw [List.eq_replicate_iff]
    refine ⟨by simp, ?_⟩
    intro b hb
    rcases List.mem_map.mp hb with ⟨i, hi, hdef⟩
    rw [← hdef]
    exact decide_eq_true (List.mem_range.mp hi)
  simp [h1]

/-- Witness for C5 with `N = 2`, `W = 3`: calls at `0, 1, 2` give
permit, permit, deny; against the full window `[0, 2]` a call at `3`
(the oldest event exactly aged out) is permitted once and denied on
repeat. -/
theorem c5_witness :
    runCalls 2 3 [] [0, 1, 2] = (List.replicate 2 true ++ [false], [(0 : ℚ), 1, 2].take 2) ∧
    ((allow 2 3 [(0 : ℚ), 2] 3).1 = true ↔ ∃ t ∈ [(0 : ℚ), 2], (3 : ℚ) ≤ qsub 3 t) ∧
    ((allow 2 3 [(0 : ℚ), 2] 3).1 = true ↔ (3 : ℚ) ≤ qsub 3 0) ∧
    ((allow 2 3 [(0 : ℚ), 2] 3).1 = true ∧
      (allow 2 3 (allow 2 3 [(0 : ℚ), 2] 3).2 3).1 = false) :=
  ⟨c5_rate_limiter.1 2 3 [0, 1, 2] (by decide) (by decide),
   c5_rate_limiter.2.1 2 3 [0, 2] 3 (by decide),
   c5_rate_limiter.2.2.1 2 3 [0, 2] 3 0 (by decide) (by decide) (by decide),
   c5_rate_limiter.2.2.2 2 3 [0, 2] 3 (by decide) (by decide) (by decide) (by decide)⟩

/-- A single preview-phase `write_file` call leaves the file store and the
directory set untouched, whatever else happens (rate denial, path escape,
or the preview return). -/
theorem write_file_preview_frame (g : Gateway) (path content mode : Str)
    (cd : Bool) (now : ℚ) :
    (write_file g path content mode true cd now).2.files = g.files ∧
    (write_file g path content mode true cd now).2.dirs = g.dirs := by
  simp only [write_file]
  split
  · exact ⟨rfl, rfl⟩
  · split
    · exact ⟨rfl, rfl⟩
    · exact ⟨rfl, rfl⟩

/-- Iterating preview-phase `write_file` calls leaves the file store and
the directory set untouched. -/
theorem applyPreviewWrites_frame (g : Gateway) (calls : List WriteCall) :
    (applyPreviewWrites g calls).files = g.files ∧
    (applyPreviewWrites g calls).dirs = g.dirs := by
  induction calls generalizing g with
  | nil => exact ⟨rfl, rfl⟩
  | cons c cs ih =>
    simp only [applyPreviewWrites]
    have h := write_file_preview_frame g c.path c.content c.mode c.createDirs c.now
    have h2 := ih (write_file g c.path c.content c.mode true c.createDirs c.now).2
    exact ⟨h2.1.trans h.1, h2.2.trans h.2⟩

/-- When admitted and inside the sandbox, the preview phase returns the
non-mutating preview plan. -/
theorem write_file_preview_result (g : Gateway) (path content mode : Str)
    (cd : Bool) (now : ℚ) (p : PathC)
    (hr : (g.rateWrite.allowAt now).1 = true)
    (hj : safe_join g.root path = Except.ok p) :
    (write_file g path content mode true cd now).1 =
      Except.ok (.preview (g.relOf p) content.length mode) := by
  simp [write_file, hr, hj, Gateway.relOf]

/-- Claim C4. `writeFile` with `requireConfirmation = true` never mutates
the file store or directory structure, for any arguments and any number
of calls; when the rate limiter admits the call and the path resolves
inside the workspace, it returns the non-mutating preview plan. -/
theorem c4_write_preview_pure :
    (∀ (g : Gateway) (path content mode : Str) (cd : Bool) (now : ℚ),
      (write_file g path content mode true cd now).2.files = g.files ∧
      (write_file g path content mode true cd now).2.dirs = g.dirs) ∧
    (∀ (g : Gateway) (calls : List WriteCall),
      (applyPreviewWrites g calls).files = g.files ∧
      (applyPreviewWrites g calls).dirs = g.dirs) ∧
    (∀ (g : Gateway) (path content mode : Str) (cd : Bool) (now : ℚ) (p : PathC),
      (g.rateWrite.allowAt now).1 = true →
      safe_join g.root path = Except.ok p →
      (write_file g path content mode true cd now).1 =
        Except.ok (.preview (g.relOf p) content.length mode)) :=
  ⟨write_file_preview_frame, applyPreviewWrites_frame, write_file_preview_result⟩

/-- Witness for C4: a preview call on Scenario A returns the plan and
leaves files and directories as they were. -/
theorem c4_witness :
    (scenarioA.rateWrite.allowAt 0).1 = true ∧
    safe_join scenarioA.root (("notes.txt").toList) =
      Except.ok (wsRoot ++ [("notes.txt").toList]) ∧
    (write_file scenarioA (("notes.txt").toList) (("hi").toList) (("replace").toList)
        true true 0).1 =
      Except.ok (.preview (scenarioA.relOf (wsRoot ++ [("notes.txt").toList]))
        (("hi").toList).length (("replace").toList)) ∧
    (write_file scenarioA (("notes.txt").toList) (("hi").toList) (("replace").toList)
        true true 0).2.files = scenarioA.files :=
  ⟨by decide, by decide,
   c4_write_preview_pure.2.2 scenarioA (("notes.txt").toList) (("hi").toList)
     (("replace").toList) true 0 (wsRoot ++ [("notes.txt").toList]) (by decide) (by decide),
   (c4_write_preview_pure.1 scenarioA (("notes.txt").toList) (("hi").toList)
     (("replace").toList) true 0).1⟩

/-- Claim C10. An apply-phase `writeFile` with `createDirs = false` whose
resolved path is inside the workspace and whose parent directory already
exists always fails (the `mkdir(parents=True, exist_ok=False)` step
raises `FileExistsError`) before any write: the file store and directory
set are unchanged, and when the rate limiter admits the call the error is
exactly `AlreadyExists`. -/
theorem c10_create_dirs_false (g : Gateway) (path content mode : Str) (now : ℚ)
    (p : PathC)
    (hj : safe_join g.root path = Except.ok p)
    (hd : g.dirs.contains p.dropLast = true) :
    exceptIsOk (write_file g path content mode false false now).1 = false ∧
    (write_file g path content mode false false now).2.files = g.files ∧
    (write_file g path content mode false false now).2.dirs = g.dirs ∧
    ((g.rateWrite.allowAt now).1 = true →
      (write_file g path content mode false false now).1 = Except.error Err.alreadyExists) := by
  cases hr : (g.rateWrite.allowAt now).1 with
  | false =>
    simp only [write_file, hr]
    exact ⟨rfl, rfl, rfl, by simp⟩
  | true =>
    have hd' : List.dropLast p ∈ g.dirs := by simpa using hd
    refine ⟨?_, ?_, ?_, fun _ => ?_⟩ <;>
      simp [write_file, hr, hj, hd', exceptIsOk]

/-- Witness for C10: the apply-phase write of `notes.txt` with
`createDirs = false` in Scenario A (whose workspace root, the parent,
exists) fails with `AlreadyExists` and changes nothing. -/
theorem c10_witness :
    safe_join scenarioA.root (("notes.txt").toList) =
      Except.ok (wsRoot ++ [("notes.txt").toList]) ∧
    scenarioA.dirs.contains (wsRoot ++ [("notes.txt").toList]).dropLast = true ∧
    exceptIsOk (write_file scenarioA (("notes.txt").toList) (("hello").toList)
      (("replace").toList) false false 0).1 = false ∧
    (write_file scenarioA (("notes.txt").toList) (("hello").toList)
      (("replace").toList) false false 0).2.files = scenarioA.files ∧
    (write_file scenarioA (("notes.txt").toList) (("hello").toList)
      (("replace").toList) false false 0).1 = Except.error Err.alreadyExists :=
  ⟨by decide, by decide,
   (c10_create_dirs_false scenarioA (("notes.txt").toList) (("hello").toList)
     (("replace").toList) 0 (wsRoot ++ [("notes.txt").toList]) (by decide) (by decide)).1,
   (c10_create_dirs_false scenarioA (("notes.txt").toList) (("hello").toList)
     (("replace").toList) 0 (wsRoot ++ [("notes.txt").toList]) (by decide) (by decide)).2.1,
   (c10_create_dirs_false scenarioA (("notes.txt").toList) (("hello").toList)
     (("replace").toList) 0 (wsRoot ++ [("notes.txt").toList]) (by decide) (by decide)).2.2.2
     (by decide)⟩

/-- A sandbox (`PathEscape`) failure of `read_file` is surfaced and writes
no audit entry (it is raised before the `try` block). -/
theorem read_file_sandbox_error (g : Gateway) (path : Str) (ad : Bool) (now : ℚ) (e : Err)
    (hr : (g.rateRead.allowAt now).1 = true)
    (hj : safe_join g.root path = Except.error e) :
    (read_file g path ad now).1 = Except.error e ∧
    (read_file g path ad now).2.audit = g.audit := by
  refine ⟨?_, ?_⟩ <;> simp [read_file, hr, hj]

/-- A denylist failure of `read_file` is surfaced and writes no audit
entry (it is raised before the `try` block). -/
theorem read_file_denylisted_error (g : Gateway) (path : Str) (now : ℚ)
    (p : PathC) (content : Str)
    (hr : (g.rateRead.allowAt now).1 = true)
    (hj : safe_join g.root path = Except.ok p)
    (hl : lookupFile g.files p = some content)
    (hd : denylisted (joinSlash (p.drop g.root.length)) = true) :
    (read_file g path false now).1 = Except.error Err.denylisted ∧
    (read_file g path false now).2.audit = g.audit := by
  refine ⟨?_, ?_⟩ <;> simp [read_file, hr, hj, Gateway.relOf, hl, hd]

/-- A whitelist rejection of `run_command` is surfaced and writes no audit
entry (it is raised before the `try` block, and the `except` clause does
not audit). -/
theorem run_command_rejected_error (g : Gateway) (cmd : Str) (tsec : ℕ)
    (ex : Str → ℕ → ExecOutcome) (now : ℚ)
    (hr : (g.rateCmd.allowAt now).1 = true)
    (hcmd : is_allowed_command cmd = false) :
    (run_command g cmd tsec ex now).1 = Except.error Err.commandRejected ∧
    (run_command g cmd tsec ex now).2.audit = g.audit := by
  refine ⟨?_, ?_⟩ <;> simp [run_command, hr, hcmd]

/-- Claim C6. (Corrected: the claim says these failures are audited with
`ok = false`; the code surfaces them but audits none of them.)
Security-relevant failures — `PathEscape` and `Denylisted` on a read,
`CommandRejected` on a command — are surfaced to the caller, but each is
raised before the audited region, so no audit entry at all is written for
the call. -/
theorem c6_security_errors_not_audited :
    (∀ (g : Gateway) (path : Str) (ad : Bool) (now : ℚ) (e : Err),
      (g.rateRead.allowAt now).1 = true →
      safe_join g.root path = Except.error e →
      (read_file g path ad now).1 = Except.error e ∧
      (read_file g path ad now).2.audit = g.audit) ∧
    (∀ (g : Gateway) (path : Str) (now : ℚ) (p : PathC) (content : Str),
      (g.rateRead.allowAt now).1 = true →
      safe_join g.root path = Except.ok p →
      lookupFile g.files p = some content →
      denylisted (joinSlash (p.drop g.root.length)) = true →
      (read_file g path false now).1 = Except.error Err.denylisted ∧
      (read_file g path false now).2.audit = g.audit) ∧
    (∀ (g : Gateway) (cmd : Str) (tsec : ℕ) (ex : Str → ℕ → ExecOutcome) (now : ℚ),
      (g.rateCmd.allowAt now).1 = true →
      is_allowed_command cmd = false →
      (run_command g cmd tsec ex now).1 = Except.error Err.commandRejected ∧
      (run_command g cmd tsec ex now).2.audit = g.audit) :=
  ⟨read_file_sandbox_error, read_file_denylisted_error, run_command_rejected_error⟩

/-- Counterexample for C6 as stated: reading the denylisted `sub/.env` in
Scenario B surfaces `Denylisted`, yet the audit log (empty before the
call) is still empty afterwards — no `ok = false` entry was written. -/
theorem c6_counterexample :
    (read_file scenarioB (("sub/.env").toList) false 0).1 = Except.error Err.denylisted ∧
    (read_file scenarioB (("sub/.env").toList) false 0).2.audit = [] ∧
    scenarioB.audit = [] :=
  ⟨by decide, by decide, by decide⟩

/-- Witness for C6 (amended) at the three concrete failure modes of
Scenario B. -/
theorem c6_witness :
    ((read_file scenarioB (("../x").toList) false 0).1 = Except.error Err.pathEscape ∧
      (read_file scenarioB (("../x").toList) false 0).2.audit = scenarioB.audit) ∧
    ((read_file scenarioB (("sub/.env").toList) false 0).1 = Except.error Err.denylisted ∧
      (read_file scenarioB (("sub/.env").toList) false 0).2.audit = scenarioB.audit) ∧
    ((run_command scenarioB (("rm -rf /").toList) 60 execDone 0).1 =
        Except.error Err.commandRejected ∧
      (run_command scenarioB (("rm -rf /").toList) 60 execDone 0).2.audit = scenarioB.audit) :=
  ⟨c6_security_errors_not_audited.1 scenarioB (("../x").toList) false 0 Err.pathEscape
     (by decide) (by decide),
   c6_security_errors_not_audited.2.1 scenarioB (("sub/.env").toList) 0
     (wsRoot ++ [("sub").toList, (".env").toList]) (("S=1").toList)
     (by decide) (by decide) (by decide) (by decide),
   c6_security_errors_not_audited.2.2 scenarioB (("rm -rf /").toList) 60 execDone 0
     (by decide) (by decide)⟩

/-- The inner match loop adds at most one hit beyond the cap: its result
never exceeds `max maxResults (hits.length + 1)`. -/
theorem fileLoop_length_le (rel text : Str) (maxR ctx : ℕ) :
    ∀ (ms : List (ℕ × Str)) (hits : List Hit),
      (fileLoop rel text maxR ctx ms hits).length ≤ max maxR (hits.length + 1)
  | [], hits => by
    simp only [fileLoop]
    exact le_trans (Nat.le_succ _) (le_max_right _ _)
  | m :: rest, hits => by
    simp only [fileLoop]
    split
    · simp only [List.length_append, List.length_singleton]
      exact le_max_right _ _
    · rename_i hgt
      have hrec := fileLoop_length_le rel text maxR ctx rest (hits ++ [mkHit rel text ctx m])
      simp only [List.length_append, List.length_singleton] at hgt hrec
      have h2 : hits.length + 1 + 1 ≤ maxR := by omega
      calc (fileLoop rel text maxR ctx rest (hits ++ [mkHit rel text ctx m])).length
          ≤ max maxR (hits.length + 1 + 1) := hrec
        _ = maxR := Nat.max_eq_left h2
        _ ≤ max maxR (hits.length + 1) := le_max_left _ _

/-- Folding the per-file step over the files: each contributing file can
push the result at most one past the cap, so the final length is bounded
by `maxResults` plus the number of contributing files. -/
theorem searchFold_length_le (root : PathC) (mb : ℕ) (fd : Str → List (ℕ × Str))
    (glob : Str) (maxR ctx : ℕ) :
    ∀ (fs : List (PathC × Str)) (hits : List Hit) (k : ℕ),
      hits.length ≤ maxR + k →
      (fs.foldl (searchStep root mb fd glob maxR ctx) hits).length ≤
        maxR + k + fs.countP (contributesHit root mb fd glob)
  | [], hits, k, h => by simpa using h
  | pf :: fs', hits, k, h => by
    rw [List.foldl_cons, List.countP_cons]
    by_cases h1 : denylisted (joinSlash (pf.1.drop root.length)) = true
    · have hstep : searchStep root mb fd glob maxR ctx hits pf = hits := by
        simp [searchStep, h1]
      have hcon : contributesHit root mb fd glob pf = false := by
        simp [contributesHit, h1]
      rw [hstep, hcon]
      simpa using searchFold_length_le root mb fd glob maxR ctx fs' hits k h
    · by_cases h2 : fnmatch (joinSlash (pf.1.drop root.length)) glob = true
      case neg =>
        have hstep : searchStep root mb fd glob maxR ctx hits pf = hits := by
          simp [searchStep, h1, h2]
        have hcon : contributesHit root mb fd glob pf = false := by
          simp [contributesHit, h1, h2]
        rw [hstep, hcon]
        simpa using searchFold_length_le root mb fd glob maxR ctx fs' hits k h
      case pos =>
        by_cases h3 : mb < pf.2.length
        · have hstep : searchStep root mb fd glob maxR ctx hits pf = hits := by
            simp [searchStep, h1, h3]
          have hcon : contributesHit root mb fd glob pf = false := by
            simp [contributesHit, h3]
          rw [hstep, hcon]
          simpa using searchFold_length_le root mb fd glob maxR ctx fs' hits k h
        · by_cases h4 : fd pf.2 = []
          · have hstep : searchStep root mb fd glob maxR ctx hits pf = hits := by
              simp [searchStep, h1, h2, h3, h4, fileLoop]
            have hcon : contributesHit root mb fd glob pf = false := by
              simp [contributesHit, h4]
            rw [hstep, hcon]
            simpa using searchFold_length_le root mb fd glob maxR ctx fs' hits k h
          · have hstep : searchStep root mb fd glob maxR ctx hits pf =
                fileLoop (joinSlash (pf.1.drop root.length)) pf.2 maxR ctx (fd pf.2) hits := by
              simp [searchStep, h1, h2, h3]
            have hcon : contributesHit root mb fd glob pf = true := by
              simp [contributesHit, h1, h2, h3, h4]
            have hone : (if contributesHit root mb fd glob pf = true then (1 : ℕ) else 0) = 1 := by
              simp [hcon]
            rw [hstep, hone]
            have hb : (fileLoop (joinSlash (pf.1.drop root.length)) pf.2 maxR ctx
                (fd pf.2) hits).length ≤ maxR + (k + 1) := by
              have hfl := fileLoop_length_le (joinSlash (pf.1.drop root.length)) pf.2 maxR ctx
                (fd pf.2) hits
              have hmax : max maxR (hits.length + 1) ≤ maxR + (k + 1) := by
                have h5 : hits.length + 1 ≤ maxR + (k + 1) := by omega
                omega
              exact le_trans hfl hmax
            have hrec := searchFold_length_le root mb fd glob maxR ctx fs'
              (fileLoop (joinSlash (pf.1.drop root.length)) pf.2 maxR ctx (fd pf.2) hits)
              (k + 1) hb
            omega

/-- Claim C8. (Corrected: the claim's bound `maxResults` can be exceeded by
one hit per file once the cap is reached, because the inner loop appends
before checking; the bound that holds is `maxResults` plus the number of
files containing a match.)  When the tracker is below its summarization
threshold, a successful `search_code` returns at most
`maxResults + (number of contributing files)` entries (first conjunct);
and a failed compilation yields `InvalidPattern` right after the rate
check, with the audit log and file store untouched (second conjunct). -/
theorem c8_search_bounds :
    (∀ (g : Gateway) (fd : Str → List (ℕ × Str)) (glob : Str) (maxR ctx : ℕ)
       (now : ℚ) (hits : List Hit),
      g.tracker.shouldSummarize = false →
      (search_code g (some fd) glob maxR ctx now).1 = Except.ok hits →
      hits.length ≤ maxR + g.files.countP (contributesHit g.root g.maxFileBytes fd glob)) ∧
    (∀ (g : Gateway) (glob : Str) (maxR ctx : ℕ) (now : ℚ),
      (g.rateRead.allowAt now).1 = true →
      (search_code g none glob maxR ctx now).1 = Except.error Err.invalidPattern ∧
      (search_code g none glob maxR ctx now).2.audit = g.audit ∧
      (search_code g none glob maxR ctx now).2.files = g.files) := by
  constructor
  · intro g fd glob maxR ctx now hits hsum hok
    cases hr : (g.rateRead.allowAt now).1 with
    | false => simp [search_code, hr] at hok
    | true =>
      simp only [search_code, hr] at hok
      simp [hsum] at hok
      rw [← hok]
      have := searchFold_length_le g.root g.maxFileBytes fd glob maxR ctx g.files [] 0
        (by simp)
      simpa using this
  · intro g glob maxR ctx now hr
    refine ⟨?_, ?_, ?_⟩ <;> simp [search_code, hr]

/-- Counterexample for C8 as stated: with `maxResults = 1` and one match
in each of two files, `search_code` returns two entries — the cap check
runs only after each append and never stops the outer file loop. -/
theorem c8_counterexample :
    (search_code searchGw (some xFinditer) (("**/*").toList) 1 1 0).1 =
      Except.ok [mkHit (("d/a.txt").toList) ['x'] 1 (0, ['x']),
                 mkHit (("d/b.txt").toList) ['x'] 1 (0, ['x'])] ∧
    resultLength (search_code searchGw (some xFinditer) (("**/*").toList) 1 1 0).1 = 2 :=
  ⟨by decide, by decide⟩

/-- Witness for C8 (amended) on the two-file workspace, and for the
fail-fast `InvalidPattern` path. -/
theorem c8_witness :
    ([mkHit (("d/a.txt").toList) ['x'] 1 (0, ['x']),
      mkHit (("d/b.txt").toList) ['x'] 1 (0, ['x'])].length ≤
      1 + searchGw.files.countP
        (contributesHit searchGw.root searchGw.maxFileBytes xFinditer (("**/*").toList))) ∧
    ((search_code searchGw none (("**/*").toList) 1 1 0).1 =
        Except.error Err.invalidPattern ∧
      (search_code searchGw none (("**/*").toList) 1 1 0).2.audit = searchGw.audit ∧
      (search_code searchGw none (("**/*").toList) 1 1 0).2.files = searchGw.files) :=
  ⟨c8_search_bounds.1 searchGw xFinditer (("**/*").toList) 1 1 0
     [mkHit (("d/a.txt").toList) ['x'] 1 (0, ['x']),
      mkHit (("d/b.txt").toList) ['x'] 1 (0, ['x'])] (by decide) (by decide),
   c8_search_bounds.2 searchGw (("**/*").toList) 1 1 0 (by decide)⟩

/-- Model: `splitlines` of a non-empty string is non-empty. -/
theorem splitlinesAux_ne_nil : ∀ (s acc : Str), s ≠ [] → splitlinesAux s acc ≠ []
  | [], _, h => absurd rfl h
  | c :: rest, acc, _ => by
    simp only [splitlinesAux]
    split
    · exact List.cons_ne_nil _ _
    · cases hr : rest with
      | nil => simp [splitlinesAux]
      | cons d t => exact splitlinesAux_ne_nil (d :: t) (acc ++ [c]) (List.cons_ne_nil d t)

/-- Splitting a string that starts with a line-break-free prefix followed
by a newline: the prefix (after the pending segment) becomes the first
line. -/
theorem splitlinesAux_nlfree_append :
    ∀ (l : Str), (∀ c ∈ l, isLineBreak c = false) →
    ∀ (z acc : Str), splitlinesAux (l ++ '\n' :: z) acc = (acc ++ l) :: splitlinesAux z []
  | [], _, z, acc => by
    have h1 : isLineBreak '\n' = true := by decide
    simp [splitlinesAux, h1]
  | c :: l', hl, z, acc => by
    have hc : isLineBreak c = false := hl c (List.mem_cons_self c l')
    have hrec := splitlinesAux_nlfree_append l'
      (fun x hx => hl x (List.mem_cons_of_mem c hx)) z (acc ++ [c])
    simp [splitlinesAux, hc, hrec, List.append_assoc]

/-- Splitting a line-break-free string yields that single segment. -/
theorem splitlinesAux_nlfree :
    ∀ (l : Str), (∀ c ∈ l, isLineBreak c = false) →
    ∀ (acc : Str), acc ++ l ≠ [] → splitlinesAux l acc = [acc ++ l]
  | [], _, acc, hne => by
    have : ¬acc.isEmpty = true := by
      simp only [List.append_nil] at hne
      simpa using hne
    simp [splitlinesAux, this]
  | c :: l', hl, acc, _ => by
    have hc : isLineBreak c = false := hl c (List.mem_cons_self c l')
    have hrec := splitlinesAux_nlfree l'
      (fun x hx => hl x (List.mem_cons_of_mem c hx)) (acc ++ [c]) (by simp)
    simp [splitlinesAux, hc, hrec, List.append_assoc]

/-- Every segment produced by `splitlinesAux` is line-break-free. -/
theorem mem_splitlinesAux_nlfree :
    ∀ (s acc : Str), (∀ c ∈ acc, isLineBreak c = false) →
    ∀ l ∈ splitlinesAux s acc, ∀ c ∈ l, isLineBreak c = false
  | [], acc, hacc => by
    simp only [splitlinesAux]
    split
    · simp
    · intro l hlmem
      simp only [List.mem_singleton] at hlmem
      exact hlmem ▸ hacc
  | c :: rest, acc, hacc => by
    simp only [splitlinesAux]
    split
    · intro l hl
      rcases List.mem_cons.mp hl with h | h
      · exact h ▸ hacc
      · exact mem_splitlinesAux_nlfree rest [] (by simp) l h
    · rename_i hc
      have hc' : isLineBreak c = false := by simpa using hc
      refine mem_splitlinesAux_nlfree rest (acc ++ [c]) ?_
      intro x hx
      rcases List.mem_append.mp hx with h | h
      · exact hacc x h
      · simp only [List.mem_singleton] at h
        exact h ▸ hc'

/-- Every line of `splitlines` is line-break-free. -/
theorem splitlines_nlfree (s : Str) :
    ∀ l ∈ splitlines s, ∀ c ∈ l, isLineBreak c = false :=
  mem_splitlinesAux_nlfree (normNL s) [] (by simp)

/-- Model: `normNL` fixes strings without a carriage return. -/
theorem normNL_noCR : ∀ (s : Str), (∀ c ∈ s, ¬c = '\r') → normNL s = s
  | [], _ => rfl
  | [_], _ => rfl
  | c :: d :: t, h => by
    have hc : ¬c = '\r' := h c (by simp)
    have hrec : normNL (d :: t) = d :: t := by
      refine normNL_noCR (d :: t) ?_
      intro x hx
      exact h x (List.mem_cons_of_mem c hx)
    simp only [normNL]
    rw [if_neg (by tauto)]
    rw [hrec]

/-- The last line of a split is unaffected by anything before a newline. -/
theorem splitlinesAux_getLast_shift (z : Str) (hz : z ≠ []) :
    ∀ (w acc : Str),
      (splitlinesAux (w ++ '\n' :: z) acc).getLast? = (splitlinesAux z []).getLast?
  | [], acc => by
    have h1 : isLineBreak '\n' = true := by decide
    simp only [List.nil_append, splitlinesAux, h1, if_true]
    cases hres : splitlinesAux z [] with
    | nil => exact absurd hres (splitlinesAux_ne_nil z [] hz)
    | cons x xs => rw [List.getLast?_cons_cons]
  | c :: w', acc => by
    simp only [List.cons_append, splitlinesAux]
    split
    · have hne := splitlinesAux_ne_nil (w' ++ '\n' :: z) [] (by simp)
      have hrec := splitlinesAux_getLast_shift z hz w' []
      cases hres : splitlinesAux (w' ++ '\n' :: z) [] with
      | nil => exact absurd hres hne
      | cons x xs =>
        rw [hres] at hrec
        rw [List.getLast?_cons_cons]
        exact hrec
    · exact splitlinesAux_getLast_shift z hz w' (acc ++ [c])

/-- Splitting the newline-join of non-empty, line-break-free lines ends at
the last line (which must itself be non-empty). -/
theorem splitlinesAux_joinNL_getLast :
    ∀ (Ls : List Str), Ls ≠ [] → (∀ l ∈ Ls, ∀ c ∈ l, isLineBreak c = false) →
    ∀ (L : Str), Ls.getLast? = some L → L ≠ [] →
    (splitlinesAux (joinNL Ls) []).getLast? = some L
  | [], h, _, _, _, _ => absurd rfl h
  | [l], _, hnl, L, hL, hLne => by
    have hlL : l = L := by simpa using hL
    subst hlL
    have hj : joinNL [l] = l := rfl
    rw [hj, splitlinesAux_nlfree l (hnl l (by simp)) [] (by simpa using hLne)]
    simp
  | l :: l' :: ls, _, hnl, L, hL, hLne => by
    have hL' : (l' :: ls).getLast? = some L := by
      rw [List.getLast?_cons_cons] at hL
      exact hL
    have hrec := splitlinesAux_joinNL_getLast (l' :: ls) (by simp)
      (fun x hx => hnl x (List.mem_cons_of_mem l hx)) L hL' hLne
    have hj : joinNL (l :: l' :: ls) = l ++ '\n' :: joinNL (l' :: ls) := rfl
    rw [hj, splitlinesAux_nlfree_append l (hnl l (by simp)) (joinNL (l' :: ls)) []]
    have hne : splitlinesAux (joinNL (l' :: ls)) [] ≠ [] := by
      intro h0
      rw [h0] at hrec
      simp at hrec
    cases hres : splitlinesAux (joinNL (l' :: ls)) [] with
    | nil => exact absurd hres hne
    | cons x xs =>
      rw [hres] at hrec
      simp only [List.nil_append]
      rw [List.getLast?_cons_cons]
      exact hrec

/-- A line-break-free character is not a carriage return. -/
theorem noCR_of_nlfree : ∀ (x : Char), isLineBreak x = false → ¬x = '\r' := by
  intro x hx h
  rw [h] at hx
  exact absurd hx (by decide)

/-- Joining line-break-free lines with newlines introduces no carriage
return. -/
theorem joinNL_noCR :
    ∀ (Ls : List Str), (∀ l ∈ Ls, ∀ c ∈ l, isLineBreak c = false) →
    ∀ c ∈ joinNL Ls, ¬c = '\r'
  | [], _, c, hc => absurd hc (List.not_mem_nil c)
  | [l], h, c, hc => noCR_of_nlfree c (h l (by simp) c hc)
  | l :: l' :: ls, h, c, hc => by
    have hj : joinNL (l :: l' :: ls) = l ++ '\n' :: joinNL (l' :: ls) := rfl
    rw [hj] at hc
    rcases List.mem_append.mp hc with h1 | h1
    · exact noCR_of_nlfree c (h l (by simp) c h1)
    · rcases List.mem_cons.mp h1 with h2 | h2
      · subst h2; decide
      · exact joinNL_noCR (l' :: ls) (fun x hx => h x (List.mem_cons_of_mem l hx)) c h2

/-- Digits are not line breaks. -/
theorem natToStrAux_nlfree : ∀ (f n : ℕ), ∀ c ∈ natToStrAux f n, isLineBreak c = false
  | 0, n => by simp [natToStrAux]
  | f + 1, n => by
    simp only [natToStrAux]
    split
    · rename_i hlt
      intro c hc
      simp only [List.mem_singleton] at hc
      subst hc
      interval_cases n <;> decide
    · intro c hc
      rcases List.mem_append.mp hc with h | h
      · exact natToStrAux_nlfree f (n / 10) c h
      · simp only [List.mem_singleton] at h
        subst h
        have hm : n % 10 < 10 := Nat.mod_lt _ (by norm_num)
        set m := n % 10 with hmdef
        interval_cases m <;> decide

theorem natToStr_nlfree (n : ℕ) : ∀ c ∈ natToStr n, isLineBreak c = false :=
  natToStrAux_nlfree (n + 1) n

/-- The first summary marker contains no line break. -/
theorem marker1_nlfree (a b : ℕ) : ∀ c ∈ marker1Text a b, isLineBreak c = false := by
  intro c hc
  unfold marker1Text at hc
  simp only [List.append_assoc, List.mem_append] at hc
  rcases hc with h | h | h | h | h
  · revert h; revert c; decide
  · exact natToStr_nlfree a c h
  · revert h; revert c; decide
  · exact natToStr_nlfree b c h
  · revert h; revert c; decide

/-- The second summary marker contains no line break. -/
theorem marker2_nlfree (a : ℕ) : ∀ c ∈ marker2Text a, isLineBreak c = false := by
  intro c hc
  unfold marker2Text at hc
  simp only [List.append_assoc, List.mem_append] at hc
  rcases hc with h | h | h
  · revert h; revert c; decide
  · exact natToStr_nlfree a c h
  · revert h; revert c; decide

theorem snd_mem_of_mem_enumFrom :
    ∀ (l : List Str) (n : ℕ) (p : ℕ × Str), p ∈ l.enumFrom n → p.2 ∈ l
  | [], _, _, h => absurd h (List.not_mem_nil _)
  | a :: t, n, p, h => by
    rcases List.mem_cons.mp h with h1 | h1
    · subst h1; exact List.mem_cons_self _ _
    · exact List.mem_cons_of_mem a (snd_mem_of_mem_enumFrom t (n + 1) p h1)

/-- Striding never introduces new elements. -/
theorem mem_of_mem_strideEvery {l : List Str} {k : ℕ} {x : Str}
    (hx : x ∈ strideEvery l k) : x ∈ l := by
  unfold strideEvery at hx
  rcases List.mem_map.mp hx with ⟨p, hp, hpx⟩
  have hp' : p ∈ l.enum := List.mem_of_mem_filter hp
  exact hpx ▸ snd_mem_of_mem_enumFrom l 0 p hp'

/-- The kept middle lines come from the middle lines. -/
theorem mem_of_mem_importantKept {mid : List Str} {mc : ℕ} {x : Str}
    (hx : x ∈ importantKept mid mc) : x ∈ mid := by
  simp only [importantKept] at hx
  split at hx
  · exact List.mem_of_mem_filter (mem_of_mem_strideEvery hx)
  · exact List.mem_of_mem_filter hx

/-- The truncated middle summary contains no carriage return when the
middle lines are line-break-free. -/
theorem middleSummaryOf_noCR (mid : List Str) (mc : ℕ)
    (h : ∀ l ∈ mid, ∀ c ∈ l, isLineBreak c = false) :
    ∀ c ∈ middleSummaryOf mid mc, ¬c = '\r' := by
  intro c hc
  have hj : ∀ c ∈ joinNL (importantKept mid mc), ¬c = '\r' :=
    joinNL_noCR (importantKept mid mc) (fun x hx => h x (mem_of_mem_importantKept hx))
  simp only [middleSummaryOf] at hc
  split at hc
  · exact hj c (List.take_subset _ _ hc)
  · exact hj c hc

/-- The middle lines of the summarizer are lines of the input. -/
theorem mem_of_mem_middleOf {lines : List Str} {x : Str}
    (hx : x ∈ middleOf lines) : x ∈ lines := by
  unfold middleOf at hx
  exact List.take_subset _ _ (List.drop_subset _ _ hx)

/-- The assembled summary contains no carriage return. -/
theorem summarizeCore_noCR (text : Str) (maxChars : ℕ) :
    ∀ c ∈ summarizeCore text maxChars, ¬c = '\r' := by
  intro c hc
  have hlines := splitlines_nlfree text
  have hmid : ∀ l ∈ middleOf (splitlines text), ∀ x ∈ l, isLineBreak x = false :=
    fun l hl => hlines l (mem_of_mem_middleOf hl)
  simp only [summarizeCore, List.append_assoc] at hc
  rcases List.mem_append.mp hc with h | hc
  · exact joinNL_noCR _ (fun l hl => hlines l (List.take_subset _ _ hl)) c h
  rcases List.mem_append.mp hc with h | hc
  · have hnl : c = '\n' := by simpa using h
    subst hnl; decide
  rcases List.mem_append.mp hc with h | hc
  · exact noCR_of_nlfree c (marker1_nlfree _ _ c h)
  rcases List.mem_append.mp hc with h | hc
  · have hnl : c = '\n' := by simpa using h
    subst hnl; decide
  rcases List.mem_append.mp hc with h | hc
  · exact middleSummaryOf_noCR _ _ hmid c h
  rcases List.mem_append.mp hc with h | hc
  · have hnl : c = '\n' := by simpa using h
    subst hnl; decide
  rcases List.mem_append.mp hc with h | hc
  · exact noCR_of_nlfree c (marker2_nlfree _ c h)
  rcases List.mem_append.mp hc with h | hc
  · have hnl : c = '\n' := by simpa using h
    subst hnl; decide
  exact joinNL_noCR _ (fun l hl => hlines l (List.drop_subset _ _ hl)) c hc

/-- On carriage-return-free strings `splitlines` is plain splitting. -/
theorem splitlines_eq_aux_of_noCR (s : Str) (h : ∀ c ∈ s, ¬c = '\r') :
    splitlines s = splitlinesAux s [] := by
  unfold splitlines
  rw [normNL_noCR s h]

/-- Joining a non-empty list of lines and appending a newline-led suffix
starts with the first line followed by a newline. -/
theorem append_head_shape (l0 : Str) (t : List Str) (R : Str) (hR : ∃ r, R = '\n' :: r) :
    ∃ z, joinNL (l0 :: t) ++ R = l0 ++ '\n' :: z := by
  cases t with
  | nil =>
    rcases hR with ⟨r, hr⟩
    exact ⟨r, by simp [joinNL, hr]⟩
  | cons a t' =>
    exact ⟨joinNL (a :: t') ++ R, by simp [joinNL, List.append_assoc]⟩

/-- For an input of at least five lines the assembled summary starts with
the input's first line. -/
theorem summarizeCore_head (text : Str) (maxChars : ℕ)
    (h5 : 5 ≤ (splitlines text).length) :
    (splitlines (summarizeCore text maxChars)).head? = (splitlines text).head? := by
  have hne : splitlines text ≠ [] := by
    intro h0
    rw [h0] at h5
    simp at h5
  obtain ⟨l0, rest, hl⟩ : ∃ l0 rest, splitlines text = l0 :: rest := by
    cases h : splitlines text with
    | nil => exact absurd h hne
    | cons a t => exact ⟨a, t, rfl⟩
  have hl0nl : ∀ c ∈ l0, isLineBreak c = false :=
    splitlines_nlfree text l0 (by rw [hl]; exact List.mem_cons_self l0 rest)
  have hsplit : summarizeCore text maxChars =
      joinNL ((splitlines text).take (keepStartCount (splitlines text).length)) ++
      (['\n', '\n'] ++ (marker1Text (middleOf (splitlines text)).length
          (importantKept (middleOf (splitlines text)) maxChars).length ++
        (['\n', '\n'] ++ (middleSummaryOf (middleOf (splitlines text)) maxChars ++
        (['\n', '\n'] ++ (marker2Text (middleOf (splitlines text)).length ++
        (['\n', '\n'] ++
          joinNL ((splitlines text).drop (keepEndCount (splitlines text).length))))))))) := by
    simp only [summarizeCore, List.append_assoc]
  have h5' : 5 ≤ (l0 :: rest).length := by rw [← hl]; exact h5
  have hks : 1 ≤ keepStartCount (l0 :: rest).length := by
    unfold keepStartCount
    rw [Nat.le_div_iff_mul_le (by norm_num)]
    simp only [List.length_cons] at h5' ⊢
    omega
  rw [hl] at hsplit
  obtain ⟨m, hm⟩ : ∃ m, keepStartCount (l0 :: rest).length = m + 1 :=
    ⟨keepStartCount (l0 :: rest).length - 1, by omega⟩
  rw [hm, List.take_succ_cons] at hsplit
  obtain ⟨z, hz⟩ : ∃ z, summarizeCore text maxChars = l0 ++ '\n' :: z := by
    cases hrt : rest.take m with
    | nil =>
      rw [hrt] at hsplit
      have hj : joinNL [l0] = l0 := rfl
      rw [hj, List.cons_append] at hsplit
      exact ⟨_, hsplit⟩
    | cons a t' =>
      rw [hrt] at hsplit
      have hj : joinNL (l0 :: a :: t') = l0 ++ '\n' :: joinNL (a :: t') := rfl
      rw [hj, List.append_assoc, List.cons_append] at hsplit
      exact ⟨_, hsplit⟩
  have hnoCR := summarizeCore_noCR text maxChars
  rw [hz] at hnoCR
  have hsl : splitlines (summarizeCore text maxChars) = (([] ++ l0) :: splitlinesAux z []) := by
    rw [hz, splitlines_eq_aux_of_noCR _ hnoCR]
    exact splitlinesAux_nlfree_append l0 hl0nl z []
  rw [hsl, hl]
  simp

/-- For a non-empty input whose last line is non-empty, the assembled
summary ends with the input's last line. -/
theorem summarizeCore_getLast (text : Str) (maxChars : ℕ) (L : Str)
    (hL : (splitlines text).getLast? = some L) (hLne : L ≠ []) :
    (splitlines (summarizeCore text maxChars)).getLast? = some L := by
  have hne : splitlines text ≠ [] := by
    intro h0
    rw [h0] at hL
    simp at hL
  have hlen1 : 0 < (splitlines text).length := List.length_pos.mpr hne
  have hke : keepEndCount (splitlines text).length < (splitlines text).length := by
    unfold keepEndCount
    rw [Nat.div_lt_iff_lt_mul (by norm_num)]
    omega
  have hdropne : (splitlines text).drop (keepEndCount (splitlines text).length) ≠ [] := by
    rw [ne_eq, List.drop_eq_nil_iff]
    omega
  have hdropLast :
      ((splitlines text).drop (keepEndCount (splitlines text).length)).getLast? = some L := by
    rw [← List.take_append_drop (keepEndCount (splitlines text).length) (splitlines text),
      List.getLast?_append_of_ne_nil _ hdropne] at hL
    exact hL
  obtain ⟨W, hsplit⟩ : ∃ W, summarizeCore text maxChars =
      W ++ '\n' ::
        ('\n' :: joinNL ((splitlines text).drop (keepEndCount (splitlines text).length))) := by
    refine ⟨joinNL ((splitlines text).take (keepStartCount (splitlines text).length)) ++
      (['\n', '\n'] ++ (marker1Text (middleOf (splitlines text)).length
          (importantKept (middleOf (splitlines text)) maxChars).length ++
        (['\n', '\n'] ++ (middleSummaryOf (middleOf (splitlines text)) maxChars ++
        (['\n', '\n'] ++ marker2Text (middleOf (splitlines text)).length))))), ?_⟩
    simp only [summarizeCore, List.append_assoc, List.cons_append, List.nil_append]
  have hnoCR := summarizeCore_noCR text maxChars
  rw [hsplit] at hnoCR
  have hsl : splitlines (summarizeCore text maxChars) =
      splitlinesAux (W ++ '\n' ::
        ('\n' :: joinNL ((splitlines text).drop (keepEndCount (splitlines text).length)))) [] := by
    rw [hsplit, splitlines_eq_aux_of_noCR _ hnoCR]
  rw [hsl]
  rw [splitlinesAux_getLast_shift
    ('\n' :: joinNL ((splitlines text).drop (keepEndCount (splitlines text).length)))
    (by simp) W []]
  have h1 : isLineBreak '\n' = true := by decide
  simp only [splitlinesAux, h1, if_true]
  have hj := splitlinesAux_joinNL_getLast
    ((splitlines text).drop (keepEndCount (splitlines text).length)) hdropne
    (fun l hl => splitlines_nlfree text l (List.drop_subset _ _ hl)) L hdropLast hLne
  cases hres : splitlinesAux
      (joinNL ((splitlines text).drop (keepEndCount (splitlines text).length))) [] with
  | nil =>
    rw [hres] at hj
    simp at hj
  | cons x xs =>
    rw [hres] at hj
    rw [List.getLast?_cons_cons]
    exact hj

/-- Claim C7. (Corrected: the final hard truncation appends a 20-character
marker after cutting at the bound, so the output can reach
`maxChars + 20` and need not preserve the first line; preservation holds
when no hard truncation occurs and the input has at least five lines.)
For input over the bound: the output length is at most `maxChars + 20`;
and whenever the output is within `maxChars` (no hard truncation), the
first line is preserved for inputs of at least five lines, and a
non-empty last line is preserved.  `80 ≤ maxChars` avoids the
`ZeroDivisionError` region of the Python code. -/
theorem c7_summarizer_bounds (text : Str) (maxChars : ℕ)
    (h80 : 80 ≤ maxChars) (hlen : maxChars < text.length) :
    (summarize_text text maxChars).length ≤ maxChars + 20 ∧
    ((summarize_text text maxChars).length ≤ maxChars →
      (5 ≤ (splitlines text).length →
        (splitlines (summarize_text text maxChars)).head? = (splitlines text).head?) ∧
      (∀ L, (splitlines text).getLast? = some L → L ≠ [] →
        (splitlines (summarize_text text maxChars)).getLast? = some L)) := by
  have hnotle : ¬text.length ≤ maxChars := not_le.mpr hlen
  have h20 : truncMarker.length = 20 := by decide
  constructor
  · unfold summarize_text
    rw [if_neg hnotle]
    split
    · rename_i hover
      rw [List.length_append, List.length_take]
      have hmin : min maxChars (summarizeCore text maxChars).length = maxChars :=
        Nat.min_eq_left (le_of_lt hover)
      omega
    · rename_i hover
      omega
  · intro hout
    have hcore_le : ¬maxChars < (summarizeCore text maxChars).length := by
      intro hover
      unfold summarize_text at hout
      rw [if_neg hnotle, if_pos hover] at hout
      rw [List.length_append, List.length_take] at hout
      have hmin : min maxChars (summarizeCore text maxChars).length = maxChars :=
        Nat.min_eq_left (le_of_lt hover)
      omega
    have heq : summarize_text text maxChars = summarizeCore text maxChars := by
      unfold summarize_text
      rw [if_neg hnotle, if_neg hcore_le]
    refine ⟨fun h5 => ?_, fun L hL hLne => ?_⟩
    · rw [heq]
      exact summarizeCore_head text maxChars h5
    · rw [heq]
      exact summarizeCore_getLast text maxChars L hL hLne

/-- Counterexample for C7 as stated: a single 20-character line against a
bound of 10 produces 30 characters of output (the bound is exceeded) and
the output's first line is empty rather than the input's line. -/
theorem c7_counterexample :
    10 < c7badText.length ∧
    10 < (summarize_text c7badText 10).length ∧
    (summarize_text c7badText 10).length = 30 ∧
    (splitlines (summarize_text c7badText 10)).head? ≠ (splitlines c7badText).head? :=
  ⟨by decide, by decide, by decide, by decide⟩

set_option maxRecDepth 1000000 in
/-- Witness for C7 (amended): ten 20-character lines (209 characters)
against a bound of 180 summarize without hard truncation, preserving the
first and last lines. -/
theorem c7_witness :
    80 ≤ 180 ∧ 180 < c7text.length ∧
    (summarize_text c7text 180).length ≤ 180 + 20 ∧
    (splitlines (summarize_text c7text 180)).head? = (splitlines c7text).head? ∧
    (splitlines (summarize_text c7text 180)).getLast? = some c7line :=
  ⟨by decide, by decide,
   (c7_summarizer_bounds c7text 180 (by decide) (by decide)).1,
   ((c7_summarizer_bounds c7text 180 (by decide) (by decide)).2 (by decide)).1 (by decide),
   ((c7_summarizer_bounds c7text 180 (by decide) (by decide)).2 (by decide)).2 c7line
     (by decide) (by decide)⟩

/-- Claim C9. (The claim says an unknown tool name yields HTTP 404; the code
disagrees.)  In the plain-HTTP binding a mismatched token does receive
401, but with a valid token and an unknown tool the `HTTPException(404)`
raised inside `handle_request` is caught by its own blanket
`except Exception` and re-raised as `HTTPException(500)`, so the client
receives 500. -/
theorem c9_http_status :
    (mcp_tool MCP_HTTP_TOKEN (("ghost_tool").toList) okExec).1 = 500 ∧
    (mcp_tool (("wrong").toList) (("read_file").toList) okExec).1 = 401 ∧
    knownTools.contains (("ghost_tool").toList) = false ∧
    verify_token MCP_HTTP_TOKEN = true :=
  ⟨by decide, by decide, by decide, by decide⟩

end MCPModel
